import Mathlib

/-
  A shallow embedding of the SmartExpenseHub recommendation engine
  (src/services/recommendationService.ts, src/services/rules/duplicateRule.ts,
  src/services/rules/merchantRule.ts, src/services/rules/missingFieldRule.ts,
  src/services/rules/classificationRule.ts, src/constants.ts and the
  recommendation-related handlers of src/App.tsx), together with theorems
  settling the specification claims about it.

  Modelling conventions:
  * TypeScript strings are Lean `String`s; `amountPaid` is an integer number
    of cents (the code buckets duplicates on `amountPaid.toFixed(2)`, which is
    injective on cent amounts).
  * JS `Map` / `Set` / plain-object tables are association lists that preserve
    insertion order, matching JS iteration order; `Map.set` on an existing key
    updates the value in place, keeping the original position, and appends
    otherwise, exactly as modelled by `assocSet`.
  * `self.crypto.randomUUID()` is modelled by an explicit id supply
    `gen : Nat -> String`: the engine assigns `gen 0, gen 1, ...` to the rule
    candidates in generation order (`assignIds`).  The rule modules themselves
    produce the placeholder id "", which the engine immediately replaces.
  * `JSON.stringify` of the identity record of recommendationService.ts is
    injective on the value domain occurring here (strings, string lists and
    the duplicate-rule field object), so identity keys are compared as plain
    structures (`RecIdentity`) rather than as serialized strings.
  * JS array sort is stable (ES2019); `List.insertionSort` with a reflexive
    total preorder is the corresponding stable sort.
-/

/-! ## String helpers (JS `includes`, `toLowerCase`, `trim`, regex normalize) -/

/-- Does the list start with the given pattern (JS `startsWith` on char lists)? -/
def listStartsWith : List Char → List Char → Bool
  | _, [] => true
  | [], _ :: _ => false
  | a :: as, b :: bs => a == b && listStartsWith as bs

/-- Contiguous-substring test on char lists (JS `String.prototype.includes`). -/
def listHasSub : List Char → List Char → Bool
  | [], p => p.isEmpty
  | a :: as, p => listStartsWith (a :: as) p || listHasSub as p

/-- JS `s.includes(sub)`. -/
def strIncludes (s sub : String) : Bool :=
  listHasSub s.data sub.data

/-- ASCII whitespace, the fragment of JS `\s` relevant to this code base. -/
def isWsChar (c : Char) : Bool :=
  c == ' ' || c == '\t' || c == '\n' || c == '\r'

/-- Replace every whitespace run by a single space (JS `replace(/\s+/g, ' ')`);
the boolean records whether the previous kept character was part of a run. -/
def squashWs : List Char → Bool → List Char
  | [], _ => []
  | c :: rest, prevWs =>
    if isWsChar c then
      (if prevWs then squashWs rest true else ' ' :: squashWs rest true)
    else c :: squashWs rest false

/-- Drop leading and trailing whitespace from a char list (JS `trim`). -/
def trimChars (l : List Char) : List Char :=
  ((l.dropWhile isWsChar).reverse.dropWhile isWsChar).reverse

/-- JS `s.trim()`. -/
def strTrim (s : String) : String :=
  String.mk (trimChars s.data)

/-- JS `s.toLowerCase()` on the ASCII data occurring here, defined over the
character list so that it reduces in the kernel. -/
def strToLower (s : String) : String :=
  String.mk (s.data.map Char.toLower)

/-- Characters kept by the merchant rule's `replace(/[^a-z0-9\s]/g, '')`
(applied after `toLowerCase`). -/
def isKeptChar (c : Char) : Bool :=
  (decide ('a' ≤ c) && decide (c ≤ 'z')) || (decide ('0' ≤ c) && decide (c ≤ '9')) || isWsChar c

/-- The merchant rule's `normalize`: lowercase, strip non-alphanumeric and
non-space characters, collapse whitespace runs, trim. -/
def normalizeStr (s : String) : String :=
  String.mk (trimChars (squashWs ((strToLower s).data.filter isKeptChar) false))

/-- Lexicographic comparison of char lists (JS code-unit string order,
written out so that it reduces in the kernel). -/
def charListLt : List Char → List Char → Bool
  | _ :: _, [] => false
  | [], [] => false
  | [], _ :: _ => true
  | a :: as, b :: bs => if a < b then true else if b < a then false else charListLt as bs

/-- JS `a < b` on strings. -/
def strLtb (a b : String) : Bool :=
  charListLt a.data b.data

/-- JS default `Array.prototype.sort()` on string arrays: stable lexicographic
ascending sort in code-unit order. -/
def sortStrings (l : List String) : List String :=
  l.insertionSort (fun a b => strLtb b a = false)

/-- Insertion-ordered deduplication, as JS `Set` / object-key iteration. -/
def firstDedup {α : Type} [DecidableEq α] (l : List α) : List α :=
  l.foldl (fun acc k => if k ∈ acc then acc else acc ++ [k]) []

/-- Lookup in an insertion-ordered association list (JS `Map.get` / `obj[k]`). -/
def assocGet {α β : Type} [DecidableEq α] (m : List (α × β)) (k : α) : Option β :=
  (m.find? (fun p => decide (p.1 = k))).map (fun p => p.2)

/-- JS `Map.set` / `obj[k] = v`: update in place when the key is present
(keeping its position), append otherwise. -/
def assocSet {α β : Type} [DecidableEq α] (m : List (α × β)) (k : α) (v : β) : List (α × β) :=
  if (m.find? (fun p => decide (p.1 = k))).isSome then
    m.map (fun p => if p.1 = k then (k, v) else p)
  else m ++ [(k, v)]

/-! ## Kernel-computable rational arithmetic

The standard `Rat` field operations are `@[irreducible]`, which blocks
`decide`-style evaluation of the embedded programs; the calculations below
therefore use `mkRat` and the helpers `qAdd`, `qSub`, `qMul`, `qMin`, `qMax`,
which are proved equal to the standard operations. -/

def qAdd (a b : ℚ) : ℚ := mkRat (a.num * b.den + b.num * a.den) (a.den * b.den)

def qSub (a b : ℚ) : ℚ := mkRat (a.num * b.den - b.num * a.den) (a.den * b.den)

def qMul (a b : ℚ) : ℚ := mkRat (a.num * b.num) (a.den * b.den)

def qMin (a b : ℚ) : ℚ := if a ≤ b then a else b

def qMax (a b : ℚ) : ℚ := if a ≤ b then b else a

/-! ## Levenshtein distance, as the dp table of merchantRule.ts -/

/-- One row-extension step of the Levenshtein dp table:
`v = min (up+1) (min (left+1) (diag+cost))`, scanning the second string. -/
def levRowStep (x : Char) : List Char → List Nat → Nat → Nat → List Nat
  | [], _, _, _ => []
  | _ :: _, [], _, _ => []
  | y :: ys, up :: pRest, diag, left =>
    let cost : Nat := if x = y then 0 else 1
    let v := min (up + 1) (min (left + 1) (diag + cost))
    v :: levRowStep x ys pRest up v

/-- The full dp table of merchantRule.ts (`dp[i][j]`), returning `dp[M][N]`. -/
def levDP (s1 s2 : List Char) : Nat :=
  let row0 := List.range (s2.length + 1)
  let final := s1.foldl (fun (acc : List Nat × Nat) x =>
      match acc.1 with
      | [] => ([], acc.2 + 1)
      | ph :: pt => ((acc.2 + 1) :: levRowStep x s2 pt ph (acc.2 + 1), acc.2 + 1))
    (row0, 0)
  final.1.getLastD 0

/-! ## Similarity primitives -/

/-- `simpleSimilarity` of duplicateRule.ts: containment fast path scoring 0.8,
otherwise the fraction of the shorter string's characters occurring anywhere
in the longer string.  Not an edit distance. -/
def simpleSimilarity (s1 s2 : String) : ℚ :=
  let longer := if s2.length < s1.length then s1 else s2
  let shorter := if s2.length < s1.length then s2 else s1
  if longer.length = 0 then 1
  else
    let longerLower := strToLower longer
    let shorterLower := strToLower shorter
    if strIncludes longerLower shorterLower ∧ longer.length - shorter.length < 5 then mkRat 4 5
    else
      let matchingChars := (shorterLower.data.filter (fun c => longerLower.data.contains c)).length
      mkRat matchingChars longer.length

/-- `areStringsSimilar` of merchantRule.ts: normalized Levenshtein similarity
compared against a threshold, with an exact-normalized-match fast path and a
length-ratio short circuit. -/
def areStringsSimilar (s1 s2 : String) (threshold : ℚ) : Bool :=
  let normS1 := normalizeStr s1
  let normS2 := normalizeStr s2
  if normS1 = normS2 then true
  else
    let M := normS1.length
    let N := normS2.length
    if 5 < max M N - min M N ∧ mkRat (min M N) (max M N) < mkRat 1 2 then false
    else
      let distance := levDP normS1.data normS2.data
      let maxLength := max M N
      if maxLength = 0 then true
      else decide (qSub 1 (mkRat distance maxLength) ≥ threshold)

/-- The confidence rescoring block of normalizeMerchantRecommendations
(merchantRule.ts lines 94-115): the same normalize + dp computation as
`areStringsSimilar`, returned as a score instead of a thresholded boolean. -/
def merchantSimilarityScore (a b : String) : ℚ :=
  let normOriginal := normalizeStr a
  let normSuggested := normalizeStr b
  let M := normOriginal.length
  let N := normSuggested.length
  let distance := levDP normOriginal.data normSuggested.data
  let maxLength := max M N
  if 0 < maxLength then qSub 1 (mkRat distance maxLength)
  else if M = 0 ∧ N = 0 then 1
  else 0

/-! ## Data model (src/types.ts) -/

inductive RecommendationType where
  | Duplicate
  | MerchantNormalization
  | MissingField
  | Classification
deriving DecidableEq, Repr

inductive RecStatus where
  | pending
  | applied
  | ignored
deriving DecidableEq, Repr

/-- The values stored in `originalValue` by this code: plain strings for the
single-field rules, and the four-field object of the duplicate rule. -/
inductive RecValue where
  | str (s : String)
  | dupFields (t1paidTo t1desc t2paidTo t2desc : String)
deriving DecidableEq, Repr

structure TxFlags where
  isDuplicateCandidate : Bool := false
  isDeleted : Bool := false
  merchantNormalized : Bool := false
  categorySuggested : Bool := false
  fieldsFilled : Bool := false
deriving DecidableEq, Repr

/-- The lazily captured pre-recommendation snapshot (`originalValues`);
only the four fields ever written by applyRecommendation are modelled. -/
structure OriginalValues where
  paidTo : Option String := none
  expenseType : Option String := none
  expenseSubtype : Option String := none
  transactionType : Option String := none
deriving DecidableEq, Repr

structure TransactionRecord where
  id : String
  dateOfPayment : String
  paidTo : String
  amountPaid : Int
  expenseType : String
  expenseSubtype : String
  description : String
  transactionType : String
  originalValues : Option OriginalValues := none
  flags : TxFlags
  rowNum : Option Nat := none
deriving DecidableEq, Repr

structure Recommendation where
  id : String
  type : RecommendationType
  transactionIds : List String
  affectedField : Option String := none
  originalValue : Option RecValue := none
  suggestedValue : String
  confidence : Option ℚ := none
  description : String
  status : RecStatus
deriving DecidableEq, Repr

/-- The identity of a recommendation condition (recommendationService.ts
`getRecommendationIdentity`); `transactionIdsString` stands for the JSON
serialization of the sorted id list. -/
structure RecIdentity where
  type : RecommendationType
  transactionIdsString : List String
  affectedField : Option String
  originalValue : Option RecValue
deriving DecidableEq, Repr

def getRecommendationIdentity (rec : Recommendation) : RecIdentity :=
  let originalValueForIdentity : Option RecValue :=
    if rec.type = .MerchantNormalization ∨ rec.type = .MissingField ∨
        rec.type = .Classification then
      rec.originalValue
    else none
  { type := rec.type
    transactionIdsString := sortStrings rec.transactionIds
    affectedField := rec.affectedField
    originalValue := originalValueForIdentity }

/-- JS `rowNum || 'N/A'` (note that the row number 0 is falsy). -/
def rowNumStr (r : Option Nat) : String :=
  match r with
  | some n => if n = 0 then "N/A" else toString n
  | none => "N/A"

/-- JS truthiness of an optional string (`undefined` and `''` are falsy). -/
def optTruthy : Option String → Bool
  | none => false
  | some s => decide (s ≠ "")

/-! ## Duplicate rule (src/services/rules/duplicateRule.ts) -/

/-- The grouping key: exact date plus amount in cents (`toFixed(2)`). -/
def dupKey (t : TransactionRecord) : String × Int :=
  (t.dateOfPayment, t.amountPaid)

/-- All unordered index pairs `i < j` of a list, in loop order. -/
def pairsOf {α : Type} : List α → List (α × α)
  | [] => []
  | x :: xs => xs.map (fun y => (x, y)) ++ pairsOf xs

/-- JS `array.join('-')`. -/
def strJoinDash : List String → String
  | [] => ""
  | [s] => s
  | s :: rest => s ++ "-" ++ strJoinDash rest

/-- The `(date, amount)` buckets of the duplicate rule, in first-occurrence
key order; deleted transactions are skipped when grouping. -/
def dupBuckets (transactions : List TransactionRecord) : List (List TransactionRecord) :=
  let grouped := transactions.filter (fun t => !t.flags.isDeleted)
  (firstDedup (grouped.map dupKey)).map
    (fun k => grouped.filter (fun t => decide (dupKey t = k)))

/-- The confidence chain of duplicateRule.ts lines 62-70, first match wins. -/
def dupConfidence (t1 t2 : TransactionRecord) : ℚ :=
  let paidToSimilarity := simpleSimilarity t1.paidTo t2.paidTo
  let descriptionSimilarity := simpleSimilarity t1.description t2.description
  let isPaidToSimilar := paidToSimilarity > mkRat 4 5
  let isDescriptionSimilar := descriptionSimilarity > mkRat 7 10
  if isPaidToSimilar ∧ isDescriptionSimilar then mkRat 9 10
  else if isPaidToSimilar ∧ t1.description = t2.description then mkRat 19 20
  else if t1.paidTo = t2.paidTo ∧ isDescriptionSimilar then mkRat 19 20
  else if isPaidToSimilar ∨ isDescriptionSimilar then mkRat 3 4
  else if t1.paidTo = t2.paidTo ∧ t1.description = t2.description then 1
  else 0

/-- The recommendation pushed for a qualifying pair (placeholder id ""). -/
def dupRec (t1 t2 : TransactionRecord) (confidence : ℚ) : Recommendation :=
  { id := ""
    type := .Duplicate
    transactionIds := sortStrings [t1.id, t2.id]
    originalValue := some (.dupFields t1.paidTo t1.description t2.paidTo t2.description)
    suggestedValue := "Mark one for deletion or review."
    confidence := some confidence
    description := "Potential duplicate transactions found. Row " ++ rowNumStr t1.rowNum ++
      " and Row " ++ rowNumStr t2.rowNum ++
      " have the same date and amount, with similar 'Paid To' and/or 'Description'."
    status := .pending }

/-- The pair loop with its `processedPairs` set. -/
def dupEmit : List (TransactionRecord × TransactionRecord) → List String → List Recommendation
  | [], _ => []
  | (t1, t2) :: rest, processed =>
    let pairKey := strJoinDash (sortStrings [t1.id, t2.id])
    if pairKey ∈ processed then dupEmit rest processed
    else
      let confidence := dupConfidence t1 t2
      if mkRat 3 4 ≤ confidence then dupRec t1 t2 confidence :: dupEmit rest (processed ++ [pairKey])
      else dupEmit rest processed

def findDuplicateRecommendations (transactions : List TransactionRecord) : List Recommendation :=
  let pairs := (dupBuckets transactions).flatMap
    (fun group => if 1 < group.length then pairsOf group else [])
  dupEmit pairs []

/-! ## Merchant rule (src/services/rules/merchantRule.ts) -/

/-- Occurrence counts of trimmed non-empty merchant names over non-deleted
transactions, keyed in insertion order; the key list doubles as the
`uniqueMerchants` set of the source. -/
def merchantCounts (transactions : List TransactionRecord) : List (String × Nat) :=
  transactions.foldl (fun m t =>
    if t.flags.isDeleted then m
    else
      let paidTo := strTrim t.paidTo
      if paidTo = "" then m
      else assocSet m paidTo ((assocGet m paidTo).getD 0 + 1)) []

def merchantCountOf (m : List (String × Nat)) (k : String) : Nat :=
  (assocGet m k).getD 0

/-- Distinct merchants sorted by descending count (stable, as JS sort). -/
def sortedMerchants (transactions : List TransactionRecord) : List String :=
  let counts := merchantCounts transactions
  (counts.map (fun p => p.1)).insertionSort
    (fun a b => merchantCountOf counts b ≤ merchantCountOf counts a)

/-- The forward sweep after a merchant seeds a new canonical: map every
later still-unmapped similar merchant to it. -/
def merchantSweep (cmap : List (String × String)) (merchant : String)
    (sorted : List String) : List (String × String) :=
  sorted.foldl (fun acc other =>
    if (assocGet acc other).isNone ∧ merchant ≠ other ∧
        areStringsSimilar merchant other (mkRat 4 5) then
      acc ++ [(other, merchant)]
    else acc) (cmap ++ [(merchant, merchant)])

/-- The greedy single-pass variant-to-canonical clustering. -/
def buildCanonicalMap (sorted : List String) : List (String × String) :=
  sorted.foldl (fun cmap merchant =>
    if (assocGet cmap merchant).isSome then cmap
    else
      let existingCanonicals := firstDedup (cmap.map (fun p => p.2))
      match existingCanonicals.find? (fun c => areStringsSimilar merchant c (mkRat 4 5)) with
      | some c => cmap ++ [(merchant, c)]
      | none => merchantSweep cmap merchant sorted) []

/-- The recommendation pushed for a record whose name differs from its
canonical; confidence `0.6 + similarity * 0.35` clamped to `[0.5, 0.95]`. -/
def merchantRec (t : TransactionRecord) (originalPaidTo suggestedCanonical : String) :
    Recommendation :=
  let similarityScore := merchantSimilarityScore originalPaidTo suggestedCanonical
  let confidence := qAdd (mkRat 3 5) (qMul similarityScore (mkRat 7 20))
  { id := ""
    type := .MerchantNormalization
    transactionIds := [t.id]
    affectedField := some "paidTo"
    originalValue := some (.str originalPaidTo)
    suggestedValue := suggestedCanonical
    confidence := some (qMin (mkRat 19 20) (qMax (mkRat 1 2) confidence))
    description := "Normalize merchant name from \"" ++ originalPaidTo ++ "\" to \"" ++
      suggestedCanonical ++ "\" for consistency."
    status := .pending }

def normalizeMerchantRecommendations (transactions : List TransactionRecord) :
    List Recommendation :=
  let cmap := buildCanonicalMap (sortedMerchants transactions)
  transactions.flatMap (fun t =>
    if t.flags.isDeleted then []
    else
      let originalPaidTo := strTrim t.paidTo
      if originalPaidTo = "" then []
      else
        match assocGet cmap originalPaidTo with
        | some suggestedCanonical =>
          if suggestedCanonical ≠ "" ∧ suggestedCanonical ≠ originalPaidTo then
            [merchantRec t originalPaidTo suggestedCanonical]
          else []
        | none => [])

/-! ## Keyword table (src/constants.ts) -/

structure KeywordRule where
  keywords : List String
  type : String
  subtype : String
deriving DecidableEq, Repr

def KEYWORD_RULES : List KeywordRule := [
  ⟨["uber", "lyft", "taxi"], "Travel", "Ride Sharing"⟩,
  ⟨["flight", "airline", "aa.com"], "Travel", "Flights"⟩,
  ⟨["coffee", "starbucks", "cafe"], "Food", "Coffee Shops"⟩,
  ⟨["zomato", "doordash", "grubhub", "uber eats"], "Food", "Delivery"⟩,
  ⟨["amazon", "walmart", "target"], "Shopping", "General Merchandise"⟩,
  ⟨["groceries", "supermarket"], "Food", "Groceries"⟩]

/-- One keyword of the rule matches the counterparty key or the description. -/
def kwMatches (paidToKey descriptionLower kw : String) : Bool :=
  strIncludes paidToKey kw || strIncludes descriptionLower kw

/-- First keyword rule with a matching keyword, together with that keyword. -/
def findKeywordRule (paidToKey descriptionLower : String) :
    Option (KeywordRule × String) :=
  match KEYWORD_RULES.find? (fun rd => rd.keywords.any (kwMatches paidToKey descriptionLower)) with
  | some rd =>
    match rd.keywords.find? (kwMatches paidToKey descriptionLower) with
    | some kw => some (rd, kw)
    | none => none
  | none => none

/-- Same, restricted to rules whose type equals the record's expense type
(the subtype fallback of missingFieldRule.ts). -/
def findKeywordRuleForType (etype paidToKey descriptionLower : String) :
    Option (KeywordRule × String) :=
  match KEYWORD_RULES.find? (fun rd =>
      decide (rd.type = etype) && rd.keywords.any (kwMatches paidToKey descriptionLower)) with
  | some rd =>
    match rd.keywords.find? (kwMatches paidToKey descriptionLower) with
    | some kw => some (rd, kw)
    | none => none
  | none => none

/-! ## Missing-field rule (src/services/rules/missingFieldRule.ts) -/

/-- Increment a nested `paidTo -> value -> count` table. -/
def bumpNested (m : List (String × List (String × Nat))) (k1 k2 : String) :
    List (String × List (String × Nat)) :=
  let inner := (assocGet m k1).getD []
  assocSet m k1 (assocSet inner k2 ((assocGet inner k2).getD 0 + 1))

/-- Increment a nested `paidTo -> type -> subtype -> count` table. -/
def bumpNested3 (m : List (String × List (String × List (String × Nat))))
    (k1 k2 k3 : String) : List (String × List (String × List (String × Nat))) :=
  let lvl2 := (assocGet m k1).getD []
  let lvl3 := (assocGet lvl2 k2).getD []
  assocSet m k1 (assocSet lvl2 k2 (assocSet lvl3 k3 ((assocGet lvl3 k3).getD 0 + 1)))

/-- The three frequency tables built from the non-deleted historical records:
expense-type by counterparty, expense-subtype by counterparty and type, and
transaction-type by counterparty. -/
def mfFrequencies (allTransactions : List TransactionRecord) :
    List (String × List (String × Nat)) ×
    List (String × List (String × List (String × Nat))) ×
    List (String × List (String × Nat)) :=
  allTransactions.foldl (fun acc t =>
    if t.flags.isDeleted then acc
    else
      let paidToKey := strToLower t.paidTo
      if paidToKey = "" then acc
      else
        let tf := if t.expenseType ≠ "" then bumpNested acc.1 paidToKey t.expenseType else acc.1
        let sf := if t.expenseType ≠ "" ∧ t.expenseSubtype ≠ "" then
            bumpNested3 acc.2.1 paidToKey t.expenseType t.expenseSubtype
          else acc.2.1
        let ttf := if t.transactionType ≠ "" then
            bumpNested acc.2.2 paidToKey t.transactionType
          else acc.2.2
        (tf, sf, ttf)) ([], [], [])

/-- `Object.entries(freqMap).sort((a,b) => b[1]-a[1])[0][0]` (stable sort). -/
def getMostFrequent (freqMap : List (String × Nat)) : Option String :=
  if freqMap.isEmpty then none
  else ((freqMap.insertionSort (fun a b => b.2 ≤ a.2)).head?).map (fun p => p.1)

/-- The missing-expense-type block of missingFieldRule.ts. -/
def mfTypeBlock (tf : List (String × List (String × Nat))) (t : TransactionRecord) :
    List Recommendation :=
  if t.expenseType ≠ "" then []
  else
    let paidToKey := strToLower t.paidTo
    let descriptionLower := strToLower t.description
    let histSuggestion : Option String :=
      if paidToKey ≠ "" then
        match assocGet tf paidToKey with
        | some freq => getMostFrequent freq
        | none => none
      else none
    match histSuggestion with
    | some suggestion =>
      [{ id := ""
         type := .MissingField
         transactionIds := [t.id]
         affectedField := some "expenseType"
         originalValue := some (.str t.expenseType)
         suggestedValue := suggestion
         confidence := some (mkRat 13 20)
         description := "Suggest filling missing Expense Type with \"" ++ suggestion ++
           "\" based on historical data for transaction at row " ++ rowNumStr t.rowNum ++ "."
         status := .pending }]
    | none =>
      match findKeywordRule paidToKey descriptionLower with
      | some (rd, kw) =>
        [{ id := ""
           type := .MissingField
           transactionIds := [t.id]
           affectedField := some "expenseType"
           originalValue := some (.str t.expenseType)
           suggestedValue := rd.type
           confidence := some (mkRat 4 5)
           description := "Suggest filling missing Expense Type with \"" ++ rd.type ++
             "\" based on keyword match ('" ++ kw ++ "') for transaction at row " ++
             rowNumStr t.rowNum ++ "."
           status := .pending }]
      | none => []

/-- The missing-expense-subtype block of missingFieldRule.ts. -/
def mfSubtypeBlock (sf : List (String × List (String × List (String × Nat))))
    (t : TransactionRecord) : List Recommendation :=
  if t.expenseType ≠ "" ∧ t.expenseSubtype = "" then
    let paidToKey := strToLower t.paidTo
    let descriptionLower := strToLower t.description
    let histSuggestion : Option String :=
      if paidToKey ≠ "" then
        match assocGet sf paidToKey with
        | some byType =>
          match assocGet byType t.expenseType with
          | some freq => getMostFrequent freq
          | none => none
        | none => none
      else none
    match histSuggestion with
    | some suggestion =>
      [{ id := ""
         type := .MissingField
         transactionIds := [t.id]
         affectedField := some "expenseSubtype"
         originalValue := some (.str t.expenseSubtype)
         suggestedValue := suggestion
         confidence := some (mkRat 3 5)
         description := "Suggest filling missing Expense Subtype with \"" ++ suggestion ++
           "\" based on historical data for transaction at row " ++ rowNumStr t.rowNum ++ "."
         status := .pending }]
    | none =>
      match findKeywordRuleForType t.expenseType paidToKey descriptionLower with
      | some (rd, kw) =>
        [{ id := ""
           type := .MissingField
           transactionIds := [t.id]
           affectedField := some "expenseSubtype"
           originalValue := some (.str t.expenseSubtype)
           suggestedValue := rd.subtype
           confidence := some (mkRat 3 4)
           description := "Suggest filling missing Expense Subtype with \"" ++ rd.subtype ++
             "\" based on keyword match ('" ++ kw ++ "') for type " ++ t.expenseType ++
             " for transaction at row " ++ rowNumStr t.rowNum ++ "."
           status := .pending }]
      | none => []
  else []

/-- The missing-transaction-type block of missingFieldRule.ts. -/
def mfTxTypeBlock (ttf : List (String × List (String × Nat))) (t : TransactionRecord) :
    List Recommendation :=
  if t.transactionType = "" then
    let paidToKey := strToLower t.paidTo
    let histSuggestion : Option String :=
      if paidToKey ≠ "" then
        match assocGet ttf paidToKey with
        | some freq => getMostFrequent freq
        | none => none
      else none
    match histSuggestion with
    | some suggestion =>
      [{ id := ""
         type := .MissingField
         transactionIds := [t.id]
         affectedField := some "transactionType"
         originalValue := some (.str t.transactionType)
         suggestedValue := suggestion
         confidence := some (mkRat 3 5)
         description := "Suggest filling missing Transaction Type with \"" ++ suggestion ++
           "\" based on historical data for \"" ++ t.paidTo ++ "\" at row " ++
           rowNumStr t.rowNum ++ "."
         status := .pending }]
    | none => []
  else []

def suggestMissingFieldRecommendations (transactionsToProcess allTransactions :
    List TransactionRecord) : List Recommendation :=
  let freqs := mfFrequencies allTransactions
  transactionsToProcess.flatMap (fun t =>
    if t.flags.isDeleted then []
    else mfTypeBlock freqs.1 t ++ mfSubtypeBlock freqs.2.1 t ++ mfTxTypeBlock freqs.2.2 t)

/-! ## Classification rule (src/services/rules/classificationRule.ts) -/

structure CatEntry where
  type : String
  subtype : String
  count : Nat
deriving DecidableEq, Repr

/-- Increment or append a `(type, subtype)` entry in a per-merchant list. -/
def bumpCat (entries : List CatEntry) (ty sub : String) : List CatEntry :=
  if entries.any (fun e => decide (e.type = ty) && decide (e.subtype = sub)) then
    entries.map (fun e =>
      if e.type = ty ∧ e.subtype = sub then { e with count := e.count + 1 } else e)
  else entries ++ [⟨ty, sub, 1⟩]

/-- Per-counterparty historical `(type, subtype)` pairs, each list sorted by
descending count (stable). -/
def classCategoryMap (allTransactions : List TransactionRecord) :
    List (String × List CatEntry) :=
  let m := allTransactions.foldl (fun m t =>
    if t.flags.isDeleted || t.paidTo == "" || t.expenseType == "" || t.expenseSubtype == "" then m
    else
      let paidToKey := strToLower t.paidTo
      assocSet m paidToKey (bumpCat ((assocGet m paidToKey).getD []) t.expenseType t.expenseSubtype)) []
  m.map (fun p => (p.1, p.2.insertionSort (fun a b => b.count ≤ a.count)))

/-- The per-record body of suggestClassificationRecommendations. -/
def classForTx (catMap : List (String × List CatEntry)) (t : TransactionRecord) :
    List Recommendation :=
  let paidToKey := strToLower t.paidTo
  let descriptionLower := strToLower t.description
  let scenario1 : List Recommendation :=
    match findKeywordRule paidToKey descriptionLower with
    | some (rd, kw) =>
      if t.expenseType ≠ rd.type ∨ t.expenseSubtype ≠ rd.subtype then
        if t.expenseType = "" then
          [{ id := ""
             type := .Classification
             transactionIds := [t.id]
             affectedField := some "expenseType"
             originalValue := some (.str t.expenseType)
             suggestedValue := rd.type
             confidence := some (mkRat 17 20)
             description := "Suggest classifying as Type: \"" ++ rd.type ++
               "\" based on keyword \"" ++ kw ++ "\" for transaction at row " ++
               rowNumStr t.rowNum ++ "."
             status := .pending },
           { id := ""
             type := .Classification
             transactionIds := [t.id]
             affectedField := some "expenseSubtype"
             originalValue := some (.str t.expenseSubtype)
             suggestedValue := rd.subtype
             confidence := some (mkRat 4 5)
             description := "Suggest classifying as Subtype: \"" ++ rd.subtype ++
               "\" (Type: " ++ rd.type ++ ") based on keyword \"" ++ kw ++
               "\" for transaction at row " ++ rowNumStr t.rowNum ++ "."
             status := .pending }]
        else if t.expenseType = rd.type ∧ t.expenseSubtype ≠ rd.subtype ∧ t.expenseSubtype = "" then
          [{ id := ""
             type := .Classification
             transactionIds := [t.id]
             affectedField := some "expenseSubtype"
             originalValue := some (.str t.expenseSubtype)
             suggestedValue := rd.subtype
             confidence := some (mkRat 3 4)
             description := "Suggest Subtype: \"" ++ rd.subtype ++ "\" for Type \"" ++
               t.expenseType ++ "\" based on keyword \"" ++ kw ++
               "\" for transaction at row " ++ rowNumStr t.rowNum ++ "."
             status := .pending }]
        else []
      else []
    | none => []
  let scenario2 : List Recommendation :=
    if paidToKey ≠ "" then
      match assocGet catMap paidToKey with
      | some entries =>
        match entries.head? with
        | some topHistorical =>
          if t.expenseType = "" ∧ t.expenseSubtype = "" then
            [{ id := ""
               type := .Classification
               transactionIds := [t.id]
               affectedField := some "expenseType"
               originalValue := some (.str t.expenseType)
               suggestedValue := topHistorical.type
               confidence := some (mkRat 7 10)
               description := "Suggest Type \"" ++ topHistorical.type ++
                 "\" based on frequent past classifications for \"" ++ t.paidTo ++
                 "\" (row " ++ rowNumStr t.rowNum ++ ")."
               status := .pending },
             { id := ""
               type := .Classification
               transactionIds := [t.id]
               affectedField := some "expenseSubtype"
               originalValue := some (.str t.expenseSubtype)
               suggestedValue := topHistorical.subtype
               confidence := some (mkRat 13 20)
               description := "Suggest Subtype \"" ++ topHistorical.subtype ++
                 "\" based on frequent past classifications for \"" ++ t.paidTo ++
                 "\" (row " ++ rowNumStr t.rowNum ++ ")."
               status := .pending }]
          else if t.expenseType ≠ "" ∧ t.expenseSubtype = "" ∧ topHistorical.type = t.expenseType then
            [{ id := ""
               type := .Classification
               transactionIds := [t.id]
               affectedField := some "expenseSubtype"
               originalValue := some (.str t.expenseSubtype)
               suggestedValue := topHistorical.subtype
               confidence := some (mkRat 13 20)
               description := "Suggest Subtype \"" ++ topHistorical.subtype ++
                 "\" for Type \"" ++ t.expenseType ++
                 "\" based on frequent past classifications for \"" ++ t.paidTo ++
                 "\" (row " ++ rowNumStr t.rowNum ++ ")."
               status := .pending }]
          else []
        | none => []
      | none => []
    else []
  scenario1 ++ scenario2

def suggestClassificationRecommendations (transactionsToProcess allTransactions :
    List TransactionRecord) : List Recommendation :=
  let catMap := classCategoryMap allTransactions
  transactionsToProcess.flatMap (fun t =>
    if t.flags.isDeleted then [] else classForTx catMap t)

/-! ## Reconciliation engine (src/services/recommendationService.ts) -/

/-- Step 1 body: carry forward one `applied`/`ignored` recommendation,
filtering its targets to surviving record ids, annotating it when every
original target was hard-deleted, and recording its (pre-filter) identity
once it is found in the output by id. -/
def carryF (existingIds : List String) (acc : List Recommendation × List RecIdentity)
    (rec : Recommendation) : List Recommendation × List RecIdentity :=
  if rec.status = .applied ∨ rec.status = .ignored then
    let validTargetIds := rec.transactionIds.filter (fun x => decide (x ∈ existingIds))
    let identityKey := getRecommendationIdentity rec
    let out :=
      if 0 < rec.transactionIds.length ∧ validTargetIds.length = 0 then
        acc.1 ++ [{ rec with
          transactionIds := []
          description := rec.description ++ " (Original targets deleted)" }]
      else if 0 < validTargetIds.length ∨ rec.transactionIds.length = 0 then
        acc.1 ++ [{ rec with transactionIds := validTargetIds }]
      else acc.1
    let proc :=
      if (out.find? (fun r => decide (r.id = rec.id))).isSome then acc.2 ++ [identityKey]
      else acc.2
    (out, proc)
  else acc

/-- The identity-keyed map of previous `pending` recommendations (step 3). -/
def pendingMapOf (current : List Recommendation) : List (RecIdentity × Recommendation) :=
  current.foldl (fun m rec =>
    if rec.status = .pending then assocSet m (getRecommendationIdentity rec) rec else m) []

/-- Step 3 body: merge one rule candidate against the resolved identities and
the previous pending map. -/
def mergeF (pm : List (RecIdentity × Recommendation))
    (acc : List Recommendation × List RecIdentity) (cand : Recommendation) :
    List Recommendation × List RecIdentity :=
  let key := getRecommendationIdentity cand
  if key ∈ acc.2 then acc
  else
    let out :=
      match assocGet pm key with
      | some existingPendingRec => acc.1 ++ [{ cand with id := existingPendingRec.id, status := .pending }]
      | none => acc.1 ++ [cand]
    (out, acc.2 ++ [key])

/-- Steps 4 and 5 body: re-filter targets, drop moot pending recommendations,
and deduplicate by id with terminal statuses winning. -/
def pruneF (existingIds softIds : List String) (acc : List (String × Recommendation))
    (rec : Recommendation) : List (String × Recommendation) :=
  let cur := { rec with transactionIds := rec.transactionIds.filter (fun x => decide (x ∈ existingIds)) }
  if cur.status = .pending ∧ cur.transactionIds.length = 0 ∧ 0 < rec.transactionIds.length then
    acc
  else if cur.status = .pending ∧ cur.type ≠ .Duplicate ∧
      (0 < cur.transactionIds.length ∧ ∀ x ∈ cur.transactionIds, x ∈ softIds) then
    acc
  else
    match assocGet acc cur.id with
    | some existingInMap =>
      if existingInMap.status = .applied ∨ existingInMap.status = .ignored then acc
      else assocSet acc cur.id cur
    | none => assocSet acc cur.id cur

def pruneStep (existingIds softIds : List String) (l : List Recommendation) :
    List Recommendation :=
  (l.foldl (pruneF existingIds softIds) []).map (fun p => p.2)

/-- Give the freshly generated candidates their ids from the supply, in
generation order (models the sequential `crypto.randomUUID()` draws). -/
def assignIds (gen : Nat → String) : Nat → List Recommendation → List Recommendation
  | _, [] => []
  | n, r :: rs => { r with id := gen n } :: assignIds gen (n + 1) rs

/-- The concatenated output of the four rule modules on the active record
set (step 2), with placeholder ids. -/
def ruleCandidates (transactionsFromState : List TransactionRecord) : List Recommendation :=
  let activeTransactionsForRules := transactionsFromState.filter (fun t => !t.flags.isDeleted)
  findDuplicateRecommendations activeTransactionsForRules ++
    normalizeMerchantRecommendations activeTransactionsForRules ++
    suggestMissingFieldRecommendations activeTransactionsForRules transactionsFromState ++
    suggestClassificationRecommendations activeTransactionsForRules transactionsFromState

/-- `generateRecommendations` of recommendationService.ts. -/
def generateRecommendations (gen : Nat → String)
    (transactionsFromState : List TransactionRecord)
    (currentRecommendations : List Recommendation) : List Recommendation :=
  let existingIds := transactionsFromState.map (fun t => t.id)
  let step1 := currentRecommendations.foldl (carryF existingIds) ([], [])
  let candidates := assignIds gen 0 (ruleCandidates transactionsFromState)
  let pm := pendingMapOf currentRecommendations
  let step3 := candidates.foldl (mergeF pm) step1
  let softIds := (transactionsFromState.filter (fun t => t.flags.isDeleted)).map (fun t => t.id)
  pruneStep existingIds softIds step3.1

/-! ## App-level apply / ignore operations (src/App.tsx) -/

structure AppState where
  transactions : List TransactionRecord
  recommendations : List Recommendation
deriving Repr

/-- The per-transaction mutation of applyRecommendation /
applyMultipleRecommendations: untargeted records are returned unchanged;
targeted records get the affected field overwritten, the pre-change value
captured into `originalValues` only when not already captured, and the
provenance flag set. -/
def applyRecToTx (rec : Recommendation) (t : TransactionRecord) : TransactionRecord :=
  if t.id ∈ rec.transactionIds then
    let ov := t.originalValues.getD {}
    if rec.type = .MerchantNormalization ∧ rec.affectedField = some "paidTo" then
      let ov := if ov.paidTo = none then { ov with paidTo := some t.paidTo } else ov
      { t with originalValues := some ov
               paidTo := rec.suggestedValue
               flags := { t.flags with merchantNormalized := true } }
    else if rec.type = .Classification ∧ optTruthy rec.affectedField = true then
      if rec.affectedField = some "expenseType" then
        let ov := if ov.expenseType = none then { ov with expenseType := some t.expenseType } else ov
        { t with originalValues := some ov
                 expenseType := rec.suggestedValue
                 flags := { t.flags with categorySuggested := true } }
      else if rec.affectedField = some "expenseSubtype" then
        let ov := if ov.expenseSubtype = none then { ov with expenseSubtype := some t.expenseSubtype } else ov
        { t with originalValues := some ov
                 expenseSubtype := rec.suggestedValue
                 flags := { t.flags with categorySuggested := true } }
      else
        { t with originalValues := some ov
                 flags := { t.flags with categorySuggested := true } }
    else if rec.type = .MissingField ∧ optTruthy rec.affectedField = true then
      if rec.affectedField = some "expenseType" then
        let ov := if ov.expenseType = none then { ov with expenseType := some t.expenseType } else ov
        { t with originalValues := some ov
                 expenseType := rec.suggestedValue
                 flags := { t.flags with fieldsFilled := true } }
      else if rec.affectedField = some "expenseSubtype" then
        let ov := if ov.expenseSubtype = none then { ov with expenseSubtype := some t.expenseSubtype } else ov
        { t with originalValues := some ov
                 expenseSubtype := rec.suggestedValue
                 flags := { t.flags with fieldsFilled := true } }
      else if rec.affectedField = some "transactionType" then
        let ov := if ov.transactionType = none then { ov with transactionType := some t.transactionType } else ov
        { t with originalValues := some ov
                 transactionType := rec.suggestedValue
                 flags := { t.flags with fieldsFilled := true } }
      else
        { t with originalValues := some ov
                 flags := { t.flags with fieldsFilled := true } }
    else if rec.type = .Duplicate then
      let markDeleted := rec.suggestedValue = "delete" ∨ strIncludes rec.suggestedValue t.id = true
      { t with originalValues := some ov
               flags := { t.flags with
                 isDuplicateCandidate := true
                 isDeleted := if markDeleted then true else t.flags.isDeleted } }
    else
      { t with originalValues := some ov }
  else t

/-- `applyRecommendation` of App.tsx: no-op when the id is not found,
otherwise mutate the targeted records and set the recommendation's status to
`applied` (unconditionally, whatever its previous status). -/
def applyRecommendation (recommendationId : String) (s : AppState) : AppState :=
  match s.recommendations.find? (fun r => decide (r.id = recommendationId)) with
  | none => s
  | some recommendation =>
    { transactions := s.transactions.map (applyRecToTx recommendation)
      recommendations := s.recommendations.map (fun r =>
        if r.id = recommendationId then { r with status := .applied } else r) }

/-- `ignoreRecommendation` of App.tsx. -/
def ignoreRecommendation (recommendationId : String) (s : AppState) : AppState :=
  { s with recommendations := s.recommendations.map (fun r =>
      if r.id = recommendationId then { r with status := .ignored } else r) }

/-- `applyMultipleRecommendations` of App.tsx: the record mutations are
driven by the targeted recommendations that are still `pending`, applied
sequentially against an accumulating snapshot, but the status update marks
every recommendation whose id is listed as `applied`. -/
def applyMultipleRecommendations (recommendationIds : List String) (s : AppState) : AppState :=
  let recsToApply := s.recommendations.filter (fun r =>
    decide (r.id ∈ recommendationIds) && decide (r.status = .pending))
  { transactions := recsToApply.foldl (fun acc rec => acc.map (applyRecToTx rec)) s.transactions
    recommendations := s.recommendations.map (fun r =>
      if r.id ∈ recommendationIds then { r with status := .applied } else r) }

/-- `ignoreMultipleRecommendations` of App.tsx. -/
def ignoreMultipleRecommendations (recommendationIds : List String) (s : AppState) : AppState :=
  { s with recommendations := s.recommendations.map (fun r =>
      if r.id ∈ recommendationIds then { r with status := .ignored } else r) }

/-! ## Characterization helpers for the reconciliation engine -/

/-- The step-1 contribution of a single previous recommendation. -/
def carryOne (existingIds : List String) (rec : Recommendation) :
    List Recommendation × List RecIdentity :=
  carryF existingIds ([], []) rec

/-- The `applied`/`ignored` sublist of a recommendation list. -/
def terminalsOf (l : List Recommendation) : List Recommendation :=
  l.filter (fun r => decide (r.status = .applied) || decide (r.status = .ignored))

/-- The pending recommendations produced by step 3 from the candidate list:
candidates whose identity is already resolved are skipped, candidates
matching a previous pending identity adopt its id, and the processed set
grows with each selected identity. -/
def selectPendings (pm : List (RecIdentity × Recommendation)) :
    List RecIdentity → List Recommendation → List Recommendation
  | _, [] => []
  | proc, c :: cs =>
    if getRecommendationIdentity c ∈ proc then selectPendings pm proc cs
    else
      (match assocGet pm (getRecommendationIdentity c) with
       | some old => { c with id := old.id, status := .pending }
       | none => c) :: selectPendings pm (proc ++ [getRecommendationIdentity c]) cs

/-! ## Field apparatus for the frame property of applyRecommendation -/

/-- The four record fields that applyRecommendation can overwrite. -/
inductive TxField where
  | paidTo
  | expenseType
  | expenseSubtype
  | transactionType
deriving DecidableEq, Repr

def txGet (t : TransactionRecord) : TxField → String
  | .paidTo => t.paidTo
  | .expenseType => t.expenseType
  | .expenseSubtype => t.expenseSubtype
  | .transactionType => t.transactionType

def ovGet (ov : OriginalValues) : TxField → Option String
  | .paidTo => ov.paidTo
  | .expenseType => ov.expenseType
  | .expenseSubtype => ov.expenseSubtype
  | .transactionType => ov.transactionType

/-- The record field a recommendation's apply-branch actually overwrites,
following the branch structure of applyRecommendation in App.tsx
(`none` when no field is written, e.g. for `Duplicate` or an unrecognized
`affectedField`). -/
def recAffected (rec : Recommendation) : Option TxField :=
  match rec.type, rec.affectedField with
  | .MerchantNormalization, some "paidTo" => some .paidTo
  | .Classification, some "expenseType" => some .expenseType
  | .Classification, some "expenseSubtype" => some .expenseSubtype
  | .MissingField, some "expenseType" => some .expenseType
  | .MissingField, some "expenseSubtype" => some .expenseSubtype
  | .MissingField, some "transactionType" => some .transactionType
  | _, _ => none

/-! ## Concrete inputs used by the witnesses and counterexamples -/

def mkTx (i date : String) (amt : Int) (paid ety esub desc tty : String)
    (del : Bool := false) : TransactionRecord :=
  { id := i, dateOfPayment := date, paidTo := paid, amountPaid := amt,
    expenseType := ety, expenseSubtype := esub, description := desc,
    transactionType := tty, flags := { isDeleted := del } }

/-- The record set of the spec's merchant-normalization example:
"AMZN Mktp US" five times and "AMZN MKTPLACE" once. -/
def amznTxs : List TransactionRecord :=
  [mkTx "a1" "2024-01-01" 1000 "AMZN Mktp US" "Shopping" "General Merchandise" "order" "Credit Card",
   mkTx "a2" "2024-01-02" 2000 "AMZN Mktp US" "Shopping" "General Merchandise" "order" "Credit Card",
   mkTx "a3" "2024-01-03" 3000 "AMZN Mktp US" "Shopping" "General Merchandise" "order" "Credit Card",
   mkTx "a4" "2024-01-04" 4000 "AMZN Mktp US" "Shopping" "General Merchandise" "order" "Credit Card",
   mkTx "a5" "2024-01-05" 5000 "AMZN Mktp US" "Shopping" "General Merchandise" "order" "Credit Card",
   mkTx "a6" "2024-01-06" 6000 "AMZN MKTPLACE" "Shopping" "General Merchandise" "order" "Credit Card"]

/-- Two records agreeing exactly on date, amount, counterparty and
description (the exact-duplicate case of C6). -/
def exDupT1 : TransactionRecord := mkTx "d1" "2024-03-01" 4250 "Starbucks" "" "" "coffee" ""

def exDupT2 : TransactionRecord := mkTx "d2" "2024-03-01" 4250 "Starbucks" "" "" "coffee" ""

/-- Two soft-deleted records and a pending Duplicate recommendation pairing
them (the C3 retention counterexample). -/
def exSoftT1 : TransactionRecord := mkTx "s1" "2024-02-02" 100 "X" "T" "S" "d" "C" true

def exSoftT2 : TransactionRecord := mkTx "s2" "2024-02-02" 100 "X" "T" "S" "d" "C" true

def exPendingDup : Recommendation :=
  { id := "pd", type := .Duplicate, transactionIds := ["s1", "s2"],
    suggestedValue := "Mark one for deletion or review.", description := "old",
    status := .pending }

/-- C1 counterexample data: an active record "a" with a missing expense type,
a history record "h" for the same merchant, and an applied recommendation
whose target list still contains the hard-deleted id "zz". -/
def exReconTxA : TransactionRecord := mkTx "a" "2024-01-01" 1000 "shell" "" "" "fuel stop" "Card"

def exReconTxH : TransactionRecord := mkTx "h" "2024-01-02" 2000 "shell" "Fuel" "" "fill" "Card"

def exAppliedDangling : Recommendation :=
  { id := "T", type := .MissingField, transactionIds := ["a", "zz"],
    affectedField := some "expenseType", originalValue := some (.str ""),
    suggestedValue := "Fuel", description := "old", status := .applied }

def exGen1 : Nat → String := fun _ => "x"

def exGen2 : Nat → String := fun _ => "y"

/-- An injective id supply for the idempotence witness. -/
def exGenRep : Nat → String := fun n => String.mk (List.replicate n 'u')

/-- An ignored recommendation, used to exhibit the ignored-to-applied
transition of C7. -/
def exIgnoredRec : Recommendation :=
  { id := "r1", type := .MissingField, transactionIds := ["t1"],
    affectedField := some "expenseType", suggestedValue := "Food",
    description := "d", status := .ignored }

def exStateIgnored : AppState :=
  { transactions := [], recommendations := [exIgnoredRec] }

/-- A well-formed record whose optional string fields are all empty and whose
amount is zero (the degenerate input of C9). -/
def exEmptyTx : TransactionRecord := mkTx "e" "" 0 "" "" "" "" ""

/-- A state for the C10 witness: one merchant-normalization recommendation
targeting one of two records. -/
def exFrameTx1 : TransactionRecord := mkTx "f1" "2024-04-01" 700 "AMZN M" "Shopping" "Gen" "order" "Card"

def exFrameTx2 : TransactionRecord := mkTx "f2" "2024-04-02" 800 "Other" "Shopping" "Gen" "order" "Card"

def exFrameRec : Recommendation :=
  { id := "fr", type := .MerchantNormalization, transactionIds := ["f1"],
    affectedField := some "paidTo", originalValue := some (.str "AMZN M"),
    suggestedValue := "AMZN Mktp US", description := "d", status := .pending }

def exFrameState : AppState :=
  { transactions := [exFrameTx1, exFrameTx2], recommendations := [exFrameRec] }

/-- An injective id supply drawing the strings "u", "uu", "uuu", ... -/
def wGenU : Nat → String := fun n => String.mk (List.replicate (n + 1) 'u')

/-- An injective id supply drawing the strings "v", "vv", "vvv", ...,
disjoint from the range of `wGenU`. -/
def wGenV : Nat → String := fun n => String.mk (List.replicate (n + 1) 'v')

/-- A terminal (applied) recommendation over the duplicate pair, used to show
identity stability on a concrete run. -/
def exTermRec : Recommendation :=
  { id := "t0", type := .Duplicate, transactionIds := ["d1", "d2"],
    suggestedValue := "Mark one for deletion or review.",
    description := "old", status := .applied }

/-- The length-ratio short circuit of `areStringsSimilar`. -/
def lengthRatioGuard (a b : String) : Prop :=
  5 < max (normalizeStr a).length (normalizeStr b).length -
      min (normalizeStr a).length (normalizeStr b).length ∧
    mkRat (min (normalizeStr a).length (normalizeStr b).length)
      (max (normalizeStr a).length (normalizeStr b).length) < mkRat 1 2

instance (a b : String) : Decidable (lengthRatioGuard a b) := by
  unfold lengthRatioGuard
  infer_instance

/-! ## Rational-helper bridging lemmas -/

theorem qAdd_eq (a b : ℚ) : qAdd a b = a + b := by
  unfold qAdd
  rw [Rat.mkRat_eq_div]
  have ha : ((a.den : ℚ)) ≠ 0 := by exact_mod_cast a.den_nz
  have hb : ((b.den : ℚ)) ≠ 0 := by exact_mod_cast b.den_nz
  conv_rhs => rw [← Rat.num_div_den a, ← Rat.num_div_den b]
  rw [div_add_div _ _ ha hb]
  push_cast
  ring_nf

theorem qSub_eq (a b : ℚ) : qSub a b = a - b := by
  unfold qSub
  rw [Rat.mkRat_eq_div]
  have ha : ((a.den : ℚ)) ≠ 0 := by exact_mod_cast a.den_nz
  have hb : ((b.den : ℚ)) ≠ 0 := by exact_mod_cast b.den_nz
  conv_rhs => rw [← Rat.num_div_den a, ← Rat.num_div_den b]
  rw [div_sub_div _ _ ha hb]
  push_cast
  ring_nf

theorem qMul_eq (a b : ℚ) : qMul a b = a * b := by
  unfold qMul
  rw [Rat.mkRat_eq_div]
  conv_rhs => rw [← Rat.num_div_den a, ← Rat.num_div_den b]
  rw [div_mul_div_comm]
  push_cast
  ring_nf

theorem qMin_eq (a b : ℚ) : qMin a b = min a b := (min_def a b).symm

theorem qMax_eq (a b : ℚ) : qMax a b = max a b := (max_def a b).symm

theorem mkRat_nat_div (m n : Nat) : mkRat m n = (m : ℚ) / (n : ℚ) := by
  rw [Rat.mkRat_eq_div]
  norm_num

/-! ## Basic lemmas about the string and list helpers -/

theorem listStartsWith_refl (l : List Char) : listStartsWith l l = true := by
  induction l with
  | nil => rfl
  | cons a as ih => simp [listStartsWith, ih]

theorem listHasSub_refl (l : List Char) : listHasSub l l = true := by
  cases l with
  | nil => rfl
  | cons a as => simp [listHasSub, listStartsWith_refl]

theorem strIncludes_refl (s : String) : strIncludes s s = true :=
  listHasSub_refl s.data

theorem string_length_eq_zero {s : String} : s.length = 0 ↔ s = "" := by
  rw [String.ext_iff]
  obtain ⟨data⟩ := s
  simp [String.length]

theorem sortStrings_perm (l : List String) : List.Perm (sortStrings l) l :=
  List.perm_insertionSort _ l

theorem mem_sortStrings {a : String} {l : List String} : a ∈ sortStrings l ↔ a ∈ l :=
  (sortStrings_perm l).mem_iff

theorem sortStrings_length (l : List String) : (sortStrings l).length = l.length :=
  (sortStrings_perm l).length_eq

theorem getRecommendationIdentity_id (r : Recommendation) (x : String) :
    getRecommendationIdentity { r with id := x } = getRecommendationIdentity r := rfl

theorem getRecommendationIdentity_id_status (r : Recommendation) (x : String) (st : RecStatus) :
    getRecommendationIdentity { r with id := x, status := st } = getRecommendationIdentity r := rfl

theorem rec_eta_txIds (r : Recommendation) :
    ({ r with transactionIds := r.transactionIds } : Recommendation) = r := rfl

theorem rec_set_status_self {r : Recommendation} (h : r.status = .pending) (x : String) :
    ({ r with id := x, status := .pending } : Recommendation) = { r with id := x } := by
  cases r
  simp only at h
  simp [h]

theorem assocGet_mem {α β : Type} [DecidableEq α] {m : List (α × β)} {k : α} {v : β}
    (h : assocGet m k = some v) : (k, v) ∈ m := by
  unfold assocGet at h
  cases hf : m.find? (fun p => decide (p.1 = k)) with
  | none => simp [hf] at h
  | some p =>
    simp [hf] at h
    have hp := List.find?_some hf
    have hmem := List.mem_of_find?_eq_some hf
    simp at hp
    have : p = (k, v) := by
      obtain ⟨p1, p2⟩ := p
      simp_all
    rwa [this] at hmem

theorem assocSet_entry_mem {α β : Type} [DecidableEq α] {m : List (α × β)} {k : α} {v : β}
    {p : α × β} (h : p ∈ assocSet m k v) : p ∈ m ∨ p = (k, v) := by
  unfold assocSet at h
  split at h
  · obtain ⟨q, hq, hqe⟩ := List.mem_map.mp h
    by_cases hk : q.1 = k
    · simp [hk] at hqe
      exact Or.inr hqe.symm
    · simp [hk] at hqe
      exact Or.inl (hqe ▸ hq)
  · rcases List.mem_append.mp h with h' | h'
    · exact Or.inl h'
    · exact Or.inr (List.mem_singleton.mp h')

theorem nodup_map_id_inj {l : List Recommendation}
    (h : (l.map (fun r => r.id)).Nodup) {a b : Recommendation}
    (ha : a ∈ l) (hb : b ∈ l) (hid : a.id = b.id) : a = b :=
  List.inj_on_of_nodup_map h ha hb hid

/-! ## Claim C5: the similarity primitives of the two rules -/

/-- C5 counterexample: the duplicate detector's `simpleSimilarity` and the
merchant normalizer's normalized-edit-distance score are different
algorithms; at ("ab", "ba") the former returns 1 (every character of one
string occurs in the other) while the normalized Levenshtein similarity is 0
(distance 2 over length 2). -/
theorem simpleSimilarity_ne_merchantScore :
    simpleSimilarity "ab" "ba" = 1 ∧ merchantSimilarityScore "ab" "ba" = 0 ∧
      simpleSimilarity "ab" "ba" ≠ merchantSimilarityScore "ab" "ba" := by
  refine ⟨by decide, by decide, by decide⟩

/-- C5 amended: the two rules do NOT share one similarity primitive (see the
counterexample); the "same algorithm, different cutoffs" relationship holds
only inside the merchant rule, whose acceptance test `areStringsSimilar`
decides `threshold ≤ merchantSimilarityScore` up to its exact-normalized-match
and length-ratio short circuits. -/
theorem areStringsSimilar_eq_score_test (a b : String) (th : ℚ)
    (hne : normalizeStr a ≠ normalizeStr b) (hng : ¬ lengthRatioGuard a b) :
    areStringsSimilar a b th = decide (th ≤ merchantSimilarityScore a b) := by
  have hmax : max (normalizeStr a).length (normalizeStr b).length ≠ 0 := by
    intro h0
    rcases Nat.max_eq_zero_iff.mp h0 with ⟨h1, h2⟩
    exact hne ((string_length_eq_zero.mp h1).trans (string_length_eq_zero.mp h2).symm)
  have hpos : 0 < max (normalizeStr a).length (normalizeStr b).length :=
    Nat.pos_of_ne_zero hmax
  unfold areStringsSimilar merchantSimilarityScore
  unfold lengthRatioGuard at hng
  simp only [if_neg hne, if_neg hng, if_neg hmax, if_pos hpos, ge_iff_le]

/-- C5 witness data: a concrete pair on which the merchant rule's threshold
test agrees with its rescored similarity. -/
theorem areStringsSimilar_eq_score_test_witness :
    normalizeStr "AMZN Mktp US" ≠ normalizeStr "AMZN MKTPLACE" ∧
      ¬ lengthRatioGuard "AMZN Mktp US" "AMZN MKTPLACE" ∧
      areStringsSimilar "AMZN Mktp US" "AMZN MKTPLACE" (4/5) =
        decide ((4/5 : ℚ) ≤ merchantSimilarityScore "AMZN Mktp US" "AMZN MKTPLACE") :=
  ⟨by decide, by decide,
    areStringsSimilar_eq_score_test "AMZN Mktp US" "AMZN MKTPLACE" (4/5)
      (by decide) (by decide)⟩

/-! ## Shape lemmas for the rule modules: every emitted recommendation is
`pending`, has a non-empty target list, and targets only active (non-deleted)
records of the input. -/

theorem pairsOf_mem {α : Type} : ∀ {l : List α} {p : α × α},
    p ∈ pairsOf l → p.1 ∈ l ∧ p.2 ∈ l := by
  intro l
  induction l with
  | nil => intro p hp; simp [pairsOf] at hp
  | cons x xs ih =>
    intro p hp
    simp only [pairsOf, List.mem_append, List.mem_map] at hp
    rcases hp with ⟨y, hy, hpe⟩ | hp
    · subst hpe
      exact ⟨List.mem_cons_self x xs, List.mem_cons_of_mem x hy⟩
    · rcases ih hp with ⟨h1, h2⟩
      exact ⟨List.mem_cons_of_mem x h1, List.mem_cons_of_mem x h2⟩

theorem dupEmit_mem : ∀ {pairs : List (TransactionRecord × TransactionRecord)}
    {processed : List String} {r : Recommendation},
    r ∈ dupEmit pairs processed →
    ∃ t1 t2 conf, (t1, t2) ∈ pairs ∧ r = dupRec t1 t2 conf := by
  intro pairs
  induction pairs with
  | nil => intro processed r hr; simp [dupEmit] at hr
  | cons p rest ih =>
    intro processed r hr
    obtain ⟨t1, t2⟩ := p
    unfold dupEmit at hr
    dsimp only at hr
    split at hr
    · obtain ⟨u1, u2, c, hm, he⟩ := ih hr
      exact ⟨u1, u2, c, List.mem_cons_of_mem _ hm, he⟩
    · split at hr
      · rcases List.mem_cons.mp hr with he | hr
        · exact ⟨t1, t2, dupConfidence t1 t2, List.mem_cons_self _ _, he⟩
        · obtain ⟨u1, u2, c, hm, he⟩ := ih hr
          exact ⟨u1, u2, c, List.mem_cons_of_mem _ hm, he⟩
      · obtain ⟨u1, u2, c, hm, he⟩ := ih hr
        exact ⟨u1, u2, c, List.mem_cons_of_mem _ hm, he⟩

theorem dupBuckets_mem {txs : List TransactionRecord} {g : List TransactionRecord}
    (hg : g ∈ dupBuckets txs) {t : TransactionRecord} (ht : t ∈ g) :
    t ∈ txs.filter (fun t => !t.flags.isDeleted) := by
  unfold dupBuckets at hg
  obtain ⟨k, _, hke⟩ := List.mem_map.mp hg
  rw [← hke] at ht
  exact List.mem_of_mem_filter ht

theorem findDuplicateRecommendations_props {txs : List TransactionRecord}
    {r : Recommendation} (h : r ∈ findDuplicateRecommendations txs) :
    r.status = .pending ∧ r.transactionIds ≠ [] ∧
      ∀ x ∈ r.transactionIds,
        x ∈ (txs.filter (fun t => !t.flags.isDeleted)).map (fun t => t.id) := by
  unfold findDuplicateRecommendations at h
  obtain ⟨t1, t2, conf, hm, he⟩ := dupEmit_mem h
  obtain ⟨g, hgmem, hpair⟩ := List.mem_flatMap.mp hm
  have hpair2 : (t1, t2) ∈ pairsOf g := by
    by_cases hlen : 1 < g.length
    · simpa [hlen] using hpair
    · simp [hlen] at hpair
  have h1 : t1 ∈ g := (pairsOf_mem hpair2).1
  have h2 : t2 ∈ g := (pairsOf_mem hpair2).2
  have h1f := dupBuckets_mem hgmem h1
  have h2f := dupBuckets_mem hgmem h2
  subst he
  refine ⟨rfl, ?_, ?_⟩
  · intro hnil
    have := congrArg List.length hnil
    simp [dupRec, sortStrings_length] at this
  · intro x hx
    have hx2 : x ∈ [t1.id, t2.id] := by
      have := mem_sortStrings.mp (by simpa [dupRec] using hx)
      simpa using this
    rcases List.mem_pair.mp hx2 with h | h
    · exact List.mem_map.mpr ⟨t1, h1f, h.symm⟩
    · exact List.mem_map.mpr ⟨t2, h2f, h.symm⟩

theorem normalizeMerchantRecommendations_props {txs : List TransactionRecord}
    {r : Recommendation} (h : r ∈ normalizeMerchantRecommendations txs) :
    r.status = .pending ∧ r.transactionIds ≠ [] ∧
      ∀ x ∈ r.transactionIds,
        x ∈ (txs.filter (fun t => !t.flags.isDeleted)).map (fun t => t.id) := by
  unfold normalizeMerchantRecommendations at h
  dsimp only at h
  obtain ⟨t, ht, hr⟩ := List.mem_flatMap.mp h
  by_cases hdel : t.flags.isDeleted
  · simp [hdel] at hr
  · simp only [hdel, if_false, Bool.false_eq_true] at hr
    by_cases htrim : strTrim t.paidTo = ""
    · simp [htrim] at hr
    · simp only [htrim, if_false] at hr
      cases hc : assocGet (buildCanonicalMap (sortedMerchants txs)) (strTrim t.paidTo) with
      | none => simp [hc] at hr
      | some c =>
        simp only [hc] at hr
        split at hr
        · rcases List.mem_singleton.mp (by simpa using hr) with he
          subst he
          refine ⟨rfl, by simp [merchantRec], ?_⟩
          intro x hx
          simp [merchantRec] at hx
          subst hx
          exact List.mem_map.mpr ⟨t, List.mem_filter.mpr ⟨ht, by simp [hdel]⟩, rfl⟩
        · simp at hr

theorem mfTypeBlock_shape {tf : List (String × List (String × Nat))}
    {t : TransactionRecord} {r : Recommendation} (h : r ∈ mfTypeBlock tf t) :
    r.status = .pending ∧ r.transactionIds = [t.id] := by
  unfold mfTypeBlock at h
  dsimp only at h
  split at h
  · simp at h
  · split at h
    · rcases List.mem_singleton.mp h with he
      subst he
      exact ⟨rfl, rfl⟩
    · split at h
      · rcases List.mem_singleton.mp h with he
        subst he
        exact ⟨rfl, rfl⟩
      · simp at h

theorem mfSubtypeBlock_shape {sf : List (String × List (String × List (String × Nat)))}
    {t : TransactionRecord} {r : Recommendation} (h : r ∈ mfSubtypeBlock sf t) :
    r.status = .pending ∧ r.transactionIds = [t.id] := by
  unfold mfSubtypeBlock at h
  dsimp only at h
  split at h
  · split at h
    · rcases List.mem_singleton.mp h with he
      subst he
      exact ⟨rfl, rfl⟩
    · split at h
      · rcases List.mem_singleton.mp h with he
        subst he
        exact ⟨rfl, rfl⟩
      · simp at h
  · simp at h

theorem mfTxTypeBlock_shape {ttf : List (String × List (String × Nat))}
    {t : TransactionRecord} {r : Recommendation} (h : r ∈ mfTxTypeBlock ttf t) :
    r.status = .pending ∧ r.transactionIds = [t.id] := by
  unfold mfTxTypeBlock at h
  dsimp only at h
  split at h
  · split at h
    · rcases List.mem_singleton.mp h with he
      subst he
      exact ⟨rfl, rfl⟩
    · simp at h
  · simp at h

theorem suggestMissingFieldRecommendations_props {toProcess allTx : List TransactionRecord}
    {r : Recommendation} (h : r ∈ suggestMissingFieldRecommendations toProcess allTx) :
    r.status = .pending ∧ r.transactionIds ≠ [] ∧
      ∀ x ∈ r.transactionIds,
        x ∈ (toProcess.filter (fun t => !t.flags.isDeleted)).map (fun t => t.id) := by
  unfold suggestMissingFieldRecommendations at h
  obtain ⟨t, ht, hr⟩ := List.mem_flatMap.mp h
  by_cases hdel : t.flags.isDeleted
  · simp [hdel] at hr
  · simp only [hdel, if_false, Bool.false_eq_true] at hr
    have hshape : r.status = .pending ∧ r.transactionIds = [t.id] := by
      rcases List.mem_append.mp hr with hr' | hr'
      · rcases List.mem_append.mp hr' with hr'' | hr''
        · exact mfTypeBlock_shape hr''
        · exact mfSubtypeBlock_shape hr''
      · exact mfTxTypeBlock_shape hr'
    refine ⟨hshape.1, by simp [hshape.2], ?_⟩
    intro x hx
    rw [hshape.2] at hx
    rcases List.mem_singleton.mp hx with he
    subst he
    exact List.mem_map.mpr ⟨t, List.mem_filter.mpr ⟨ht, by simp [hdel]⟩, rfl⟩

theorem classForTx_shape {catMap : List (String × List CatEntry)}
    {t : TransactionRecord} {r : Recommendation} (h : r ∈ classForTx catMap t) :
    r.status = .pending ∧ r.transactionIds = [t.id] := by
  unfold classForTx at h
  dsimp only at h
  rcases List.mem_append.mp h with hr | hr
  · split at hr
    · split at hr
      · split at hr
        · rcases List.mem_cons.mp hr with he | hr'
          · subst he; exact ⟨rfl, rfl⟩
          · rcases List.mem_singleton.mp hr' with he
            subst he; exact ⟨rfl, rfl⟩
        · split at hr
          · rcases List.mem_singleton.mp hr with he
            subst he; exact ⟨rfl, rfl⟩
          · simp at hr
      · simp at hr
    · simp at hr
  · split at hr
    · split at hr
      · split at hr
        · split at hr
          · rcases List.mem_cons.mp hr with he | hr'
            · subst he; exact ⟨rfl, rfl⟩
            · rcases List.mem_singleton.mp hr' with he
              subst he; exact ⟨rfl, rfl⟩
          · split at hr
            · rcases List.mem_singleton.mp hr with he
              subst he; exact ⟨rfl, rfl⟩
            · simp at hr
        · simp at hr
      · simp at hr
    · simp at hr

theorem suggestClassificationRecommendations_props {toProcess allTx : List TransactionRecord}
    {r : Recommendation} (h : r ∈ suggestClassificationRecommendations toProcess allTx) :
    r.status = .pending ∧ r.transactionIds ≠ [] ∧
      ∀ x ∈ r.transactionIds,
        x ∈ (toProcess.filter (fun t => !t.flags.isDeleted)).map (fun t => t.id) := by
  unfold suggestClassificationRecommendations at h
  obtain ⟨t, ht, hr⟩ := List.mem_flatMap.mp h
  by_cases hdel : t.flags.isDeleted
  · simp [hdel] at hr
  · simp only [hdel, if_false, Bool.false_eq_true] at hr
    have hshape := classForTx_shape hr
    refine ⟨hshape.1, by simp [hshape.2], ?_⟩
    intro x hx
    rw [hshape.2] at hx
    rcases List.mem_singleton.mp hx with he
    subst he
    exact List.mem_map.mpr ⟨t, List.mem_filter.mpr ⟨ht, by simp [hdel]⟩, rfl⟩

/-! ## Structural lemmas for the reconciliation engine: step 1 -/

theorem find_append_singleton_isSome (l : List Recommendation) (e : Recommendation)
    (idv : String) (h : e.id = idv) :
    ((l ++ [e]).find? (fun r => decide (r.id = idv))).isSome = true := by
  rw [List.find?_isSome]
  exact ⟨e, List.mem_append_right _ (List.mem_singleton_self _), by simp [h]⟩

theorem carryF_shift (ex : List String) (o : List Recommendation) (p : List RecIdentity)
    (rec : Recommendation) :
    carryF ex (o, p) rec = (o ++ (carryOne ex rec).1, p ++ (carryOne ex rec).2) := by
  unfold carryOne carryF
  dsimp only
  by_cases hterm : rec.status = .applied ∨ rec.status = .ignored
  · rw [if_pos hterm, if_pos hterm]
    by_cases h1 : 0 < rec.transactionIds.length ∧
        (rec.transactionIds.filter (fun x => decide (x ∈ ex))).length = 0
    · rw [if_pos h1, if_pos h1]
      simp [find_append_singleton_isSome]
    · rw [if_neg h1, if_neg h1]
      by_cases h2 : 0 < (rec.transactionIds.filter (fun x => decide (x ∈ ex))).length ∨
          rec.transactionIds.length = 0
      · rw [if_pos h2, if_pos h2]
        simp [find_append_singleton_isSome]
      · exfalso
        push_neg at h1 h2
        omega
  · rw [if_neg hterm, if_neg hterm]
    simp

theorem foldl_carryF (ex : List String) :
    ∀ (l : List Recommendation) (o : List Recommendation) (p : List RecIdentity),
    l.foldl (carryF ex) (o, p) =
      (o ++ l.flatMap (fun r => (carryOne ex r).1),
       p ++ l.flatMap (fun r => (carryOne ex r).2)) := by
  intro l
  induction l with
  | nil => intro o p; simp
  | cons r rs ih =>
    intro o p
    rw [List.foldl_cons, carryF_shift, ih]
    simp

theorem carryOne_pending {ex : List String} {rec : Recommendation}
    (h : rec.status = .pending) : carryOne ex rec = ([], []) := by
  unfold carryOne carryF
  rw [if_neg]
  intro hc
  rcases hc with hc | hc <;> rw [h] at hc <;> exact RecStatus.noConfusion hc

theorem carryOne_terminal_general {ex : List String} {rec : Recommendation}
    (hterm : rec.status = .applied ∨ rec.status = .ignored) :
    ∃ r', carryOne ex rec = ([r'], [getRecommendationIdentity rec]) ∧
      r'.status = rec.status ∧ r'.id = rec.id ∧ r'.type = rec.type ∧
      r'.transactionIds = rec.transactionIds.filter (fun x => decide (x ∈ ex)) := by
  unfold carryOne carryF
  dsimp only
  rw [if_pos hterm]
  by_cases h1 : 0 < rec.transactionIds.length ∧
      (rec.transactionIds.filter (fun x => decide (x ∈ ex))).length = 0
  · rw [if_pos h1]
    have htx : rec.transactionIds.filter (fun x => decide (x ∈ ex)) = [] :=
      List.length_eq_zero.mp h1.2
    refine ⟨{ rec with transactionIds := [], description := rec.description ++ " (Original targets deleted)" }, ?_, rfl, rfl, rfl, htx.symm⟩
    simp [find_append_singleton_isSome]
  · rw [if_neg h1]
    by_cases h2 : 0 < (rec.transactionIds.filter (fun x => decide (x ∈ ex))).length ∨
        rec.transactionIds.length = 0
    · rw [if_pos h2]
      refine ⟨{ rec with transactionIds := rec.transactionIds.filter (fun x => decide (x ∈ ex)) }, ?_, rfl, rfl, rfl, rfl⟩
      simp [find_append_singleton_isSome]
    · exfalso
      push_neg at h1 h2
      omega

theorem carryOne_terminal_subset {ex : List String} {rec : Recommendation}
    (hterm : rec.status = .applied ∨ rec.status = .ignored)
    (hsub : ∀ x ∈ rec.transactionIds, x ∈ ex) :
    carryOne ex rec = ([rec], [getRecommendationIdentity rec]) := by
  have hfilter : rec.transactionIds.filter (fun x => decide (x ∈ ex)) = rec.transactionIds :=
    List.filter_eq_self.mpr (fun x hx => by simpa using hsub x hx)
  unfold carryOne carryF
  dsimp only
  rw [if_pos hterm, hfilter]
  have h1 : ¬(0 < rec.transactionIds.length ∧ rec.transactionIds.length = 0) := by omega
  have h2 : 0 < rec.transactionIds.length ∨ rec.transactionIds.length = 0 := by omega
  rw [if_neg h1, if_pos h2, rec_eta_txIds]
  simp [find_append_singleton_isSome]

theorem terminalsOf_mem_sub {l : List Recommendation} {r : Recommendation}
    (h : r ∈ terminalsOf l) : r ∈ l :=
  List.mem_of_mem_filter h

theorem terminalsOf_mem_status {l : List Recommendation} {r : Recommendation}
    (h : r ∈ terminalsOf l) : r.status = .applied ∨ r.status = .ignored := by
  have := List.of_mem_filter h
  simpa using this

theorem terminalsOf_append (a b : List Recommendation) :
    terminalsOf (a ++ b) = terminalsOf a ++ terminalsOf b := by
  unfold terminalsOf
  exact List.filter_append a b

theorem terminalsOf_eq_self {l : List Recommendation}
    (h : ∀ r ∈ l, r.status = .applied ∨ r.status = .ignored) : terminalsOf l = l := by
  unfold terminalsOf
  refine List.filter_eq_self.mpr (fun r hr => ?_)
  rcases h r hr with h' | h' <;> simp [h']

theorem terminalsOf_eq_nil {l : List Recommendation}
    (h : ∀ r ∈ l, r.status = .pending) : terminalsOf l = [] := by
  unfold terminalsOf
  refine List.filter_eq_nil_iff.mpr (fun r hr => ?_)
  simp [h r hr]

theorem carryFlat_eq (ex : List String) : ∀ (cur : List Recommendation),
    (∀ r ∈ cur, (r.status = .applied ∨ r.status = .ignored) →
      ∀ x ∈ r.transactionIds, x ∈ ex) →
    cur.flatMap (fun r => (carryOne ex r).1) = terminalsOf cur ∧
      cur.flatMap (fun r => (carryOne ex r).2) =
        (terminalsOf cur).map getRecommendationIdentity := by
  intro cur
  induction cur with
  | nil => intro _; simp [terminalsOf]
  | cons r rs ih =>
    intro h2
    have hrs := ih (fun q hq h => h2 q (List.mem_cons_of_mem r hq) h)
    cases hstat : r.status with
    | pending =>
      have hco := @carryOne_pending ex r hstat
      constructor
      · rw [List.flatMap_cons, hco]
        simp only [List.nil_append]
        rw [hrs.1]
        unfold terminalsOf
        rw [List.filter_cons]
        simp [hstat]
      · rw [List.flatMap_cons, hco]
        simp only [List.nil_append]
        rw [hrs.2]
        unfold terminalsOf
        rw [List.filter_cons]
        simp [hstat]
    | applied =>
      have hterm : r.status = .applied ∨ r.status = .ignored := Or.inl hstat
      have hco := carryOne_terminal_subset hterm (h2 r (List.mem_cons_self r rs) hterm)
      constructor
      · rw [List.flatMap_cons, hco]
        unfold terminalsOf
        rw [List.filter_cons]
        simp only [hstat]
        rw [hrs.1]
        simp [terminalsOf]
      · rw [List.flatMap_cons, hco]
        unfold terminalsOf
        rw [List.filter_cons]
        simp only [hstat]
        rw [hrs.2]
        simp [terminalsOf]
    | ignored =>
      have hterm : r.status = .applied ∨ r.status = .ignored := Or.inr hstat
      have hco := carryOne_terminal_subset hterm (h2 r (List.mem_cons_self r rs) hterm)
      constructor
      · rw [List.flatMap_cons, hco]
        unfold terminalsOf
        rw [List.filter_cons]
        simp only [hstat]
        rw [hrs.1]
        simp [terminalsOf]
      · rw [List.flatMap_cons, hco]
        unfold terminalsOf
        rw [List.filter_cons]
        simp only [hstat]
        rw [hrs.2]
        simp [terminalsOf]

theorem carryStep_eq (ex : List String) (cur : List Recommendation)
    (h2 : ∀ r ∈ cur, (r.status = .applied ∨ r.status = .ignored) →
      ∀ x ∈ r.transactionIds, x ∈ ex) :
    cur.foldl (carryF ex) ([], []) =
      (terminalsOf cur, (terminalsOf cur).map getRecommendationIdentity) := by
  rw [foldl_carryF]
  rw [(carryFlat_eq ex cur h2).1, (carryFlat_eq ex cur h2).2]
  simp

/-! ## Structural lemmas for the reconciliation engine: step 3 -/

theorem foldl_mergeF (pm : List (RecIdentity × Recommendation)) :
    ∀ (cands : List Recommendation) (T : List Recommendation) (proc : List RecIdentity),
    (cands.foldl (mergeF pm) (T, proc)).1 = T ++ selectPendings pm proc cands := by
  intro cands
  induction cands with
  | nil => intro T proc; simp [selectPendings]
  | cons c cs ih =>
    intro T proc
    rw [List.foldl_cons]
    by_cases hk : getRecommendationIdentity c ∈ proc
    · have hm : mergeF pm (T, proc) c = (T, proc) := by
        unfold mergeF
        rw [if_pos hk]
      rw [hm, ih, selectPendings, if_pos hk]
    · cases hget : assocGet pm (getRecommendationIdentity c) with
      | some old =>
        have hm : mergeF pm (T, proc) c =
            (T ++ [{ c with id := old.id, status := .pending }],
              proc ++ [getRecommendationIdentity c]) := by
          unfold mergeF
          rw [if_neg hk]
          dsimp only
          rw [hget]
        rw [hm, ih, selectPendings, if_neg hk]
        rw [hget]
        simp
      | none =>
        have hm : mergeF pm (T, proc) c = (T ++ [c], proc ++ [getRecommendationIdentity c]) := by
          unfold mergeF
          rw [if_neg hk]
          dsimp only
          rw [hget]
        rw [hm, ih, selectPendings, if_neg hk]
        rw [hget]
        simp

theorem selectPendings_ident_notin (pm : List (RecIdentity × Recommendation)) :
    ∀ {cs : List Recommendation} {proc : List RecIdentity} {r : Recommendation},
    r ∈ selectPendings pm proc cs → getRecommendationIdentity r ∉ proc := by
  intro cs
  induction cs with
  | nil => intro proc r hr; simp [selectPendings] at hr
  | cons c cs ih =>
    intro proc r hr
    rw [selectPendings] at hr
    by_cases hk : getRecommendationIdentity c ∈ proc
    · rw [if_pos hk] at hr
      exact ih hr
    · rw [if_neg hk] at hr
      rcases List.mem_cons.mp hr with he | hr'
      · subst he
        cases assocGet pm (getRecommendationIdentity c) with
        | some old => simpa [getRecommendationIdentity_id_status] using hk
        | none => exact hk
      · intro hmem
        exact ih hr' (List.mem_append_left _ hmem)

theorem selectPendings_prop (pm : List (RecIdentity × Recommendation))
    (P : Recommendation → Prop)
    (hP : ∀ (c : Recommendation) (x : String), P c → P { c with id := x, status := .pending }) :
    ∀ {cs : List Recommendation} {proc : List RecIdentity},
    (∀ c ∈ cs, P c) → ∀ r ∈ selectPendings pm proc cs, P r := by
  intro cs
  induction cs with
  | nil => intro proc _ r hr; simp [selectPendings] at hr
  | cons c cs ih =>
    intro proc hc r hr
    rw [selectPendings] at hr
    by_cases hk : getRecommendationIdentity c ∈ proc
    · rw [if_pos hk] at hr
      exact ih (fun q hq => hc q (List.mem_cons_of_mem c hq)) r hr
    · rw [if_neg hk] at hr
      rcases List.mem_cons.mp hr with he | hr'
      · subst he
        cases assocGet pm (getRecommendationIdentity c) with
        | some old =>
          exact hP c old.id (hc c (List.mem_cons_self c cs))
        | none =>
          exact hc c (List.mem_cons_self c cs)
      · exact ih (fun q hq => hc q (List.mem_cons_of_mem c hq)) r hr'

theorem selectPendings_head_ident (pm : List (RecIdentity × Recommendation))
    (c : Recommendation) :
    getRecommendationIdentity
        (match assocGet pm (getRecommendationIdentity c) with
         | some old => { c with id := old.id, status := .pending }
         | none => c) = getRecommendationIdentity c := by
  cases hget : assocGet pm (getRecommendationIdentity c) with
  | some old => simp [getRecommendationIdentity_id_status]
  | none => rfl

theorem selectPendings_idents_nodup (pm : List (RecIdentity × Recommendation)) :
    ∀ (cs : List Recommendation) (proc : List RecIdentity),
    ((selectPendings pm proc cs).map getRecommendationIdentity).Nodup := by
  intro cs
  induction cs with
  | nil => intro proc; simp [selectPendings]
  | cons c cs ih =>
    intro proc
    rw [selectPendings]
    by_cases hk : getRecommendationIdentity c ∈ proc
    · rw [if_pos hk]
      exact ih proc
    · rw [if_neg hk]
      rw [List.map_cons]
      refine List.nodup_cons.mpr ⟨?_, ih (proc ++ [getRecommendationIdentity c])⟩
      rw [selectPendings_head_ident]
      intro hmem
      obtain ⟨r', hr', he⟩ := List.mem_map.mp hmem
      have := selectPendings_ident_notin pm hr'
      rw [he] at this
      exact this (List.mem_append_right _ (List.mem_singleton_self _))

theorem selectPendings_mem_ids (pm : List (RecIdentity × Recommendation)) :
    ∀ {cs : List Recommendation} {proc : List RecIdentity} {r : Recommendation},
    r ∈ selectPendings pm proc cs →
    (∃ old, assocGet pm (getRecommendationIdentity r) = some old ∧ r.id = old.id) ∨
      r.id ∈ cs.map (fun c => c.id) := by
  intro cs
  induction cs with
  | nil => intro proc r hr; simp [selectPendings] at hr
  | cons c cs ih =>
    intro proc r hr
    rw [selectPendings] at hr
    by_cases hk : getRecommendationIdentity c ∈ proc
    · rw [if_pos hk] at hr
      rcases ih hr with h | h
      · exact Or.inl h
      · exact Or.inr (by simp [h])
    · rw [if_neg hk] at hr
      rcases List.mem_cons.mp hr with he | hr'
      · subst he
        cases hget : assocGet pm (getRecommendationIdentity c) with
        | some old =>
          dsimp only
          refine Or.inl ⟨old, ?_, rfl⟩
          rw [getRecommendationIdentity_id_status]
          exact hget
        | none =>
          dsimp only
          exact Or.inr (by simp)
      · rcases ih hr' with h | h
        · exact Or.inl h
        · exact Or.inr (by simp [h])

theorem assignIds_id_mem {gen : Nat → String} :
    ∀ {C0 : List Recommendation} {n : Nat} {x : String},
    x ∈ (assignIds gen n C0).map (fun r => r.id) → ∃ m, n ≤ m ∧ x = gen m := by
  intro C0
  induction C0 with
  | nil => intro n x hx; simp [assignIds] at hx
  | cons c cs ih =>
    intro n x hx
    rw [assignIds] at hx
    rcases List.mem_map.mp hx with ⟨r, hr, he⟩
    rcases List.mem_cons.mp hr with he' | hr'
    · subst he'
      exact ⟨n, le_refl n, he.symm⟩
    · rcases ih (List.mem_map.mpr ⟨r, hr', he⟩) with ⟨m, hm, he''⟩
      exact ⟨m, Nat.le_of_succ_le hm, he''⟩

theorem selectPendings_assign_ids (pm : List (RecIdentity × Recommendation))
    (gen : Nat → String) {C0 : List Recommendation} {n : Nat} {proc : List RecIdentity}
    {r : Recommendation} (hr : r ∈ selectPendings pm proc (assignIds gen n C0)) :
    (∃ old, assocGet pm (getRecommendationIdentity r) = some old ∧ r.id = old.id) ∨
      ∃ m, n ≤ m ∧ r.id = gen m := by
  rcases selectPendings_mem_ids pm hr with h | h
  · exact Or.inl h
  · exact Or.inr (assignIds_id_mem h)

theorem selectPendings_ids_nodup (pm : List (RecIdentity × Recommendation))
    (prevIds : List String)
    (hpm : ∀ p ∈ pm, p.2.id ∈ prevIds ∧ p.1 = getRecommendationIdentity p.2)
    (hpmInj : ∀ p q, p ∈ pm → q ∈ pm → p.2.id = q.2.id → p.1 = q.1)
    (gen : Nat → String) (hginj : Function.Injective gen)
    (hfresh : ∀ m, gen m ∉ prevIds) :
    ∀ (C0 : List Recommendation) (n : Nat) (proc : List RecIdentity),
    ((selectPendings pm proc (assignIds gen n C0)).map (fun r => r.id)).Nodup := by
  intro C0
  induction C0 with
  | nil => intro n proc; simp [assignIds, selectPendings]
  | cons c cs ih =>
    intro n proc
    rw [assignIds, selectPendings]
    by_cases hk : getRecommendationIdentity { c with id := gen n } ∈ proc
    · rw [if_pos hk]
      exact ih (n + 1) proc
    · rw [if_neg hk]
      rw [List.map_cons]
      refine List.nodup_cons.mpr
        ⟨?_, ih (n + 1) (proc ++ [getRecommendationIdentity { c with id := gen n }])⟩
      intro hmem
      obtain ⟨r', hr', he⟩ := List.mem_map.mp hmem
      have hrid : getRecommendationIdentity r' ≠
          getRecommendationIdentity { c with id := gen n } := by
        intro heq
        have := selectPendings_ident_notin pm hr'
        rw [heq] at this
        exact this (List.mem_append_right _ (List.mem_singleton_self _))
      rcases selectPendings_assign_ids pm gen hr' with ⟨old', hget', hid'⟩ | ⟨m, hm, hid'⟩
      · have hmem' := assocGet_mem hget'
        cases hh : assocGet pm (getRecommendationIdentity { c with id := gen n }) with
        | some old =>
          rw [hh] at he
          dsimp only at he
          have hmem'' := assocGet_mem hh
          have hkeys := hpmInj _ _ hmem' hmem'' (by rw [← hid']; exact he)
          exact hrid hkeys
        | none =>
          rw [hh] at he
          dsimp only at he
          have hids := (hpm _ hmem').1
          rw [← hid'] at hids
          rw [he] at hids
          exact hfresh n hids
      · cases hh : assocGet pm (getRecommendationIdentity { c with id := gen n }) with
        | some old =>
          rw [hh] at he
          dsimp only at he
          have hids := (hpm _ (assocGet_mem hh)).1
          rw [← he, hid'] at hids
          exact hfresh m hids
        | none =>
          rw [hh] at he
          dsimp only at he
          have hgg : gen n = gen m := by rw [← he]; exact hid'
          have := hginj hgg
          omega

/-! ## Structural lemmas: the pending-identity map -/

theorem foldl_pending_entries (C : RecIdentity × Recommendation → Prop) :
    ∀ (l : List Recommendation) (m0 : List (RecIdentity × Recommendation)),
    (∀ p ∈ m0, C p) →
    (∀ rec ∈ l, rec.status = .pending → C (getRecommendationIdentity rec, rec)) →
    ∀ p ∈ l.foldl (fun m rec =>
        if rec.status = .pending then assocSet m (getRecommendationIdentity rec) rec else m) m0,
      C p := by
  intro l
  induction l with
  | nil => intro m0 h0 _ p hp; exact h0 p hp
  | cons r rs ih =>
    intro m0 h0 hC p hp
    rw [List.foldl_cons] at hp
    refine ih _ ?_ (fun q hq hqp => hC q (List.mem_cons_of_mem r hq) hqp) p hp
    intro q hq
    by_cases hr : r.status = .pending
    · rw [if_pos hr] at hq
      rcases assocSet_entry_mem hq with h | h
      · exact h0 q h
      · rw [h]
        exact hC r (List.mem_cons_self r rs) hr
    · rw [if_neg hr] at hq
      exact h0 q hq

theorem pendingMapOf_wf (current : List Recommendation) :
    ∀ p ∈ pendingMapOf current,
      p.2 ∈ current ∧ p.2.status = .pending ∧ p.1 = getRecommendationIdentity p.2 := by
  intro p hp
  unfold pendingMapOf at hp
  exact foldl_pending_entries
    (fun p => p.2 ∈ current ∧ p.2.status = .pending ∧ p.1 = getRecommendationIdentity p.2)
    current [] (by simp) (fun rec hrec hpend => ⟨hrec, hpend, rfl⟩) p hp

theorem foldl_pending_skip_terminal :
    ∀ (l : List Recommendation) (m0 : List (RecIdentity × Recommendation)),
    (∀ r ∈ l, r.status ≠ .pending) →
    l.foldl (fun m rec =>
        if rec.status = .pending then assocSet m (getRecommendationIdentity rec) rec else m) m0 = m0 := by
  intro l
  induction l with
  | nil => intro m0 _; rfl
  | cons r rs ih =>
    intro m0 h
    rw [List.foldl_cons, if_neg (h r (List.mem_cons_self r rs))]
    exact ih m0 (fun q hq => h q (List.mem_cons_of_mem r hq))

theorem assocSet_append_fresh {α β : Type} [DecidableEq α] {m : List (α × β)} {k : α} {v : β}
    (h : ∀ p ∈ m, p.1 ≠ k) : assocSet m k v = m ++ [(k, v)] := by
  unfold assocSet
  rw [if_neg]
  intro hs
  rw [List.find?_isSome] at hs
  obtain ⟨p, hp, hpk⟩ := hs
  simp at hpk
  exact h p hp hpk

theorem foldl_pending_append_fresh :
    ∀ (l : List Recommendation) (m0 : List (RecIdentity × Recommendation)),
    (∀ r ∈ l, r.status = .pending) →
    ((l.map getRecommendationIdentity).Nodup) →
    (∀ r ∈ l, ∀ p ∈ m0, p.1 ≠ getRecommendationIdentity r) →
    l.foldl (fun m rec =>
        if rec.status = .pending then assocSet m (getRecommendationIdentity rec) rec else m) m0 =
      m0 ++ l.map (fun r => (getRecommendationIdentity r, r)) := by
  intro l
  induction l with
  | nil => intro m0 _ _ _; simp
  | cons r rs ih =>
    intro m0 hpend hnd hfr
    rw [List.foldl_cons, if_pos (hpend r (List.mem_cons_self r rs))]
    rw [assocSet_append_fresh (fun p hp => hfr r (List.mem_cons_self r rs) p hp)]
    have hnd' : (∀ x ∈ rs, ¬ getRecommendationIdentity x = getRecommendationIdentity r) ∧
        (rs.map getRecommendationIdentity).Nodup := by simpa using hnd
    rw [ih (m0 ++ [(getRecommendationIdentity r, r)])
      (fun q hq => hpend q (List.mem_cons_of_mem r hq)) hnd'.2 ?_]
    · simp
    · intro q hq p hp
      rcases List.mem_append.mp hp with h | h
      · exact hfr q (List.mem_cons_of_mem r hq) p h
      · rcases List.mem_singleton.mp h with he
        rw [he]
        intro heq
        exact hnd'.1 q hq heq.symm

theorem assocGet_pairs_self :
    ∀ (S : List Recommendation), ((S.map getRecommendationIdentity).Nodup) →
    ∀ s ∈ S, assocGet (S.map (fun r => (getRecommendationIdentity r, r)))
      (getRecommendationIdentity s) = some s := by
  intro S
  induction S with
  | nil => intro _ s hs; simp at hs
  | cons r rs ih =>
    intro hnd s hs
    have hnd' : (∀ x ∈ rs, ¬ getRecommendationIdentity x = getRecommendationIdentity r) ∧
        (rs.map getRecommendationIdentity).Nodup := by simpa using hnd
    rcases List.mem_cons.mp hs with he | hs'
    · subst he
      unfold assocGet
      simp [List.find?_cons]
    · have hne : getRecommendationIdentity s ≠ getRecommendationIdentity r :=
        fun heq => hnd'.1 s hs' heq
      unfold assocGet
      rw [List.map_cons, List.find?_cons]
      have hd : decide ((getRecommendationIdentity r, r).1 = getRecommendationIdentity s) = false := by
        simp
        exact fun h => hne h.symm
      rw [hd]
      have := ih hnd'.2 s hs'
      unfold assocGet at this
      exact this

/-! ## Structural lemmas: steps 4 and 5 -/

theorem foldl_pruneF_entries (C : Recommendation → Prop) (ex soft : List String) :
    ∀ (l : List Recommendation) (acc : List (String × Recommendation)),
    (∀ p ∈ acc, C p.2) →
    (∀ rec ∈ l, C { rec with transactionIds := rec.transactionIds.filter (fun x => decide (x ∈ ex)) }) →
    ∀ p ∈ l.foldl (pruneF ex soft) acc, C p.2 := by
  intro l
  induction l with
  | nil => intro acc h0 _ p hp; exact h0 p hp
  | cons r rs ih =>
    intro acc h0 hl p hp
    rw [List.foldl_cons] at hp
    refine ih _ ?_ (fun q hq => hl q (List.mem_cons_of_mem r hq)) p hp
    intro q hq
    unfold pruneF at hq
    dsimp only at hq
    split at hq
    · exact h0 q hq
    · split at hq
      · exact h0 q hq
      · split at hq
        · split at hq
          · exact h0 q hq
          · rcases assocSet_entry_mem hq with h | h
            · exact h0 q h
            · rw [h]
              exact hl r (List.mem_cons_self r rs)
        · rcases assocSet_entry_mem hq with h | h
          · exact h0 q h
          · rw [h]
            exact hl r (List.mem_cons_self r rs)

theorem pruneStep_mem {ex soft : List String} {l : List Recommendation} {r : Recommendation}
    (h : r ∈ pruneStep ex soft l) :
    ∃ r0 ∈ l, r = { r0 with transactionIds := r0.transactionIds.filter (fun x => decide (x ∈ ex)) } := by
  unfold pruneStep at h
  obtain ⟨p, hp, he⟩ := List.mem_map.mp h
  have := foldl_pruneF_entries
    (fun q => ∃ r0 ∈ l, q = { r0 with transactionIds := r0.transactionIds.filter (fun x => decide (x ∈ ex)) })
    ex soft l [] (by simp) (fun rec hrec => ⟨rec, hrec, rfl⟩) p hp
  rw [he] at this
  exact this

theorem foldl_pruneF_append (ex soft : List String) :
    ∀ (l : List Recommendation) (acc : List (String × Recommendation)),
    (∀ r ∈ l, ∀ x ∈ r.transactionIds, x ∈ ex) →
    (∀ r ∈ l, r.status = .pending →
      r.transactionIds ≠ [] ∧ ∃ x ∈ r.transactionIds, x ∉ soft) →
    ((l.map (fun r => r.id)).Nodup) →
    (∀ r ∈ l, ∀ p ∈ acc, p.1 ≠ r.id) →
    l.foldl (pruneF ex soft) acc = acc ++ l.map (fun r => (r.id, r)) := by
  intro l
  induction l with
  | nil => intro acc _ _ _ _; simp
  | cons r rs ih =>
    intro acc htx hpend hnd hfr
    rw [List.foldl_cons]
    have hfilter : r.transactionIds.filter (fun x => decide (x ∈ ex)) = r.transactionIds :=
      List.filter_eq_self.mpr
        (fun x hx => by simpa using htx r (List.mem_cons_self r rs) x hx)
    have hnd' : (∀ x ∈ rs, ¬ x.id = r.id) ∧ ((rs.map (fun q => q.id)).Nodup) := by
      simpa using hnd
    have hcur : pruneF ex soft acc r = acc ++ [(r.id, r)] := by
      unfold pruneF
      dsimp only
      rw [hfilter, rec_eta_txIds]
      rw [if_neg (by intro hc; omega)]
      rw [if_neg ?hc2]
      case hc2 =>
        intro hc
        obtain ⟨hp, _, _, hall⟩ := hc
        obtain ⟨_, x, hx, hxs⟩ := hpend r (List.mem_cons_self r rs) hp
        exact hxs (hall x hx)
      have hget : assocGet acc r.id = none := by
        unfold assocGet
        rw [List.find?_eq_none.mpr (fun p hp => by
          simpa using hfr r (List.mem_cons_self r rs) p hp)]
        rfl
      rw [hget]
      exact assocSet_append_fresh (fun p hp => hfr r (List.mem_cons_self r rs) p hp)
    rw [hcur]
    rw [ih (acc ++ [(r.id, r)])
      (fun q hq => htx q (List.mem_cons_of_mem r hq))
      (fun q hq => hpend q (List.mem_cons_of_mem r hq))
      hnd'.2 ?_]
    · simp
    · intro q hq p hp
      rcases List.mem_append.mp hp with h | h
      · exact hfr q (List.mem_cons_of_mem r hq) p h
      · rcases List.mem_singleton.mp h with he
        rw [he]
        intro heq
        exact hnd'.1 q hq heq.symm

theorem pruneStep_eq_self (ex soft : List String) (l : List Recommendation)
    (hids : ((l.map (fun r => r.id)).Nodup))
    (htx : ∀ r ∈ l, ∀ x ∈ r.transactionIds, x ∈ ex)
    (hpend : ∀ r ∈ l, r.status = .pending →
      r.transactionIds ≠ [] ∧ ∃ x ∈ r.transactionIds, x ∉ soft) :
    pruneStep ex soft l = l := by
  unfold pruneStep
  rw [foldl_pruneF_append ex soft l [] htx hpend hids (by simp)]
  rw [List.nil_append, List.map_map]
  rw [show ((fun p : String × Recommendation => p.2) ∘ fun r : Recommendation => (r.id, r)) = id
    from rfl]
  exact List.map_id l

/-! ## Candidate properties and the output characterization -/

theorem ruleCandidates_props {txs : List TransactionRecord} {r : Recommendation}
    (h : r ∈ ruleCandidates txs) :
    r.status = .pending ∧ r.transactionIds ≠ [] ∧
      ∀ x ∈ r.transactionIds,
        x ∈ (txs.filter (fun t => !t.flags.isDeleted)).map (fun t => t.id) := by
  unfold ruleCandidates at h
  dsimp only at h
  have hactive : (txs.filter (fun t => !t.flags.isDeleted)).filter (fun t => !t.flags.isDeleted) =
      txs.filter (fun t => !t.flags.isDeleted) :=
    List.filter_eq_self.mpr (fun a ha => (List.mem_filter.mp ha).2)
  rcases List.mem_append.mp h with h' | h'
  · rcases List.mem_append.mp h' with h'' | h''
    · rcases List.mem_append.mp h'' with h3 | h3
      · have := findDuplicateRecommendations_props h3
        rwa [hactive] at this
      · have := normalizeMerchantRecommendations_props h3
        rwa [hactive] at this
    · have := suggestMissingFieldRecommendations_props h''
      rwa [hactive] at this
  · have := suggestClassificationRecommendations_props h'
    rwa [hactive] at this

theorem assignIds_mem_src {gen : Nat → String} :
    ∀ {C0 : List Recommendation} {n : Nat} {r : Recommendation},
    r ∈ assignIds gen n C0 →
    ∃ c ∈ C0, r.status = c.status ∧ r.transactionIds = c.transactionIds := by
  intro C0
  induction C0 with
  | nil => intro n r hr; simp [assignIds] at hr
  | cons c cs ih =>
    intro n r hr
    rw [assignIds] at hr
    rcases List.mem_cons.mp hr with he | hr'
    · subst he
      exact ⟨c, List.mem_cons_self c cs, rfl, rfl⟩
    · obtain ⟨c', hc', h1, h2⟩ := ih hr'
      exact ⟨c', List.mem_cons_of_mem c hc', h1, h2⟩

theorem assigned_candidates_props {gen : Nat → String} {txs : List TransactionRecord}
    {n : Nat} {r : Recommendation} (h : r ∈ assignIds gen n (ruleCandidates txs)) :
    r.status = .pending ∧ r.transactionIds ≠ [] ∧
      ∀ x ∈ r.transactionIds,
        x ∈ (txs.filter (fun t => !t.flags.isDeleted)).map (fun t => t.id) := by
  obtain ⟨c, hc, hst, htx⟩ := assignIds_mem_src h
  have hp := ruleCandidates_props hc
  exact ⟨hst.trans hp.1, htx ▸ hp.2.1, htx ▸ hp.2.2⟩

theorem generateRecommendations_eq (gen : Nat → String) (txs : List TransactionRecord)
    (prev : List Recommendation)
    (htxids : ((txs.map (fun t => t.id)).Nodup))
    (h1 : ((prev.map (fun r => r.id)).Nodup))
    (h2 : ∀ r ∈ prev, (r.status = .applied ∨ r.status = .ignored) →
      ∀ x ∈ r.transactionIds, x ∈ txs.map (fun t => t.id))
    (hginj : Function.Injective gen)
    (hgfresh : ∀ n, gen n ∉ prev.map (fun r => r.id)) :
    generateRecommendations gen txs prev =
      terminalsOf prev ++
        selectPendings (pendingMapOf prev) ((terminalsOf prev).map getRecommendationIdentity)
          (assignIds gen 0 (ruleCandidates txs)) := by
  unfold generateRecommendations
  dsimp only
  rw [carryStep_eq _ _ h2, foldl_mergeF]
  have hSprops : ∀ r ∈ selectPendings (pendingMapOf prev)
      ((terminalsOf prev).map getRecommendationIdentity) (assignIds gen 0 (ruleCandidates txs)),
      r.status = .pending ∧ r.transactionIds ≠ [] ∧
        ∀ x ∈ r.transactionIds,
          x ∈ (txs.filter (fun t => !t.flags.isDeleted)).map (fun t => t.id) := by
    intro r hr
    refine selectPendings_prop _ (fun c => c.status = .pending ∧ c.transactionIds ≠ [] ∧
        ∀ x ∈ c.transactionIds,
          x ∈ (txs.filter (fun t => !t.flags.isDeleted)).map (fun t => t.id))
      ?_ (fun c hc => assigned_candidates_props hc) r hr
    intro c x hc
    exact ⟨rfl, hc.2.1, hc.2.2⟩
  apply pruneStep_eq_self
  · rw [List.map_append]
    refine List.Nodup.append ?_ ?_ ?_
    · exact List.Nodup.sublist ((List.filter_sublist prev).map (fun r => r.id)) h1
    · refine selectPendings_ids_nodup (pendingMapOf prev) (prev.map (fun r => r.id))
        ?_ ?_ gen hginj hgfresh (ruleCandidates txs) 0 _
      · intro p hp
        have hw := pendingMapOf_wf prev p hp
        exact ⟨List.mem_map.mpr ⟨p.2, hw.1, rfl⟩, hw.2.2⟩
      · intro p q hp hq hid
        have hwp := pendingMapOf_wf prev p hp
        have hwq := pendingMapOf_wf prev q hq
        have heq := nodup_map_id_inj h1 hwp.1 hwq.1 hid
        rw [hwp.2.2, hwq.2.2, heq]
    · intro a haT haS
      obtain ⟨t, htT, hte⟩ := List.mem_map.mp haT
      obtain ⟨s, hsS, hse⟩ := List.mem_map.mp haS
      rcases selectPendings_assign_ids _ gen hsS with ⟨old, hget, hid⟩ | ⟨m, _, hid⟩
      · have hw := pendingMapOf_wf prev _ (assocGet_mem hget)
        have hteq : t = old :=
          nodup_map_id_inj h1 (terminalsOf_mem_sub htT) hw.1 (by rw [hte, ← hse, hid])
        have hst := terminalsOf_mem_status htT
        rw [hteq] at hst
        rcases hst with h' | h' <;> rw [hw.2.1] at h' <;> exact RecStatus.noConfusion h'
      · have : gen m ∈ prev.map (fun r => r.id) := by
          rw [← hid, hse, ← hte]
          exact List.mem_map.mpr ⟨t, terminalsOf_mem_sub htT, rfl⟩
        exact hgfresh m this
  · intro r hr
    rcases List.mem_append.mp hr with h' | h'
    · exact h2 r (terminalsOf_mem_sub h') (terminalsOf_mem_status h')
    · intro x hx
      have := (hSprops r h').2.2 x hx
      obtain ⟨t, htf, hte⟩ := List.mem_map.mp this
      exact List.mem_map.mpr ⟨t, List.mem_of_mem_filter htf, hte⟩
  · intro r hr hrp
    rcases List.mem_append.mp hr with h' | h'
    · rcases terminalsOf_mem_status h' with h'' | h'' <;> rw [hrp] at h'' <;>
        exact absurd h'' (by simp)
    · obtain ⟨hst, hne, hsub⟩ := hSprops r h'
      refine ⟨hne, ?_⟩
      obtain ⟨x, hx⟩ := List.exists_mem_of_ne_nil _ hne
      refine ⟨x, hx, ?_⟩
      intro hxsoft
      obtain ⟨t1, ht1, hte1⟩ := List.mem_map.mp (hsub x hx)
      obtain ⟨t2, ht2, hte2⟩ := List.mem_map.mp hxsoft
      have h1f := List.mem_filter.mp ht1
      have h2f := List.mem_filter.mp ht2
      have : t1 = t2 :=
        List.inj_on_of_nodup_map htxids h1f.1 h2f.1 (by rw [hte1, hte2])
      rw [this] at h1f
      simp [h2f.2] at h1f

/-! ## Second-run stability -/

theorem selectPendings_pending (pm : List (RecIdentity × Recommendation)) (gen : Nat → String)
    (txs : List TransactionRecord) (proc : List RecIdentity) (n : Nat) :
    ∀ r ∈ selectPendings pm proc (assignIds gen n (ruleCandidates txs)),
      r.status = .pending := by
  intro r hr
  exact selectPendings_prop pm (fun c => c.status = .pending) (fun c x _ => rfl)
    (fun c hc => (assigned_candidates_props hc).1) r hr

theorem pendingMapOf_TS (T S : List Recommendation)
    (hT : ∀ r ∈ T, r.status ≠ .pending)
    (hS : ∀ r ∈ S, r.status = .pending)
    (hnd : ((S.map getRecommendationIdentity).Nodup)) :
    pendingMapOf (T ++ S) = S.map (fun r => (getRecommendationIdentity r, r)) := by
  unfold pendingMapOf
  rw [List.foldl_append]
  rw [foldl_pending_skip_terminal T [] hT]
  rw [foldl_pending_append_fresh S [] hS hnd (by simp)]
  exact List.nil_append _

theorem gen_out_ids_nodup (gen : Nat → String) (txs : List TransactionRecord)
    (prev : List Recommendation)
    (h1 : ((prev.map (fun r => r.id)).Nodup))
    (hginj : Function.Injective gen)
    (hgfresh : ∀ n, gen n ∉ prev.map (fun r => r.id)) :
    (((terminalsOf prev ++
        selectPendings (pendingMapOf prev) ((terminalsOf prev).map getRecommendationIdentity)
          (assignIds gen 0 (ruleCandidates txs))).map (fun r => r.id)).Nodup) := by
  rw [List.map_append]
  refine List.Nodup.append ?_ ?_ ?_
  · exact List.Nodup.sublist ((List.filter_sublist prev).map (fun r => r.id)) h1
  · refine selectPendings_ids_nodup (pendingMapOf prev) (prev.map (fun r => r.id))
      ?_ ?_ gen hginj hgfresh (ruleCandidates txs) 0 _
    · intro p hp
      have hw := pendingMapOf_wf prev p hp
      exact ⟨List.mem_map.mpr ⟨p.2, hw.1, rfl⟩, hw.2.2⟩
    · intro p q hp hq hid
      have hwp := pendingMapOf_wf prev p hp
      have hwq := pendingMapOf_wf prev q hq
      have heq := nodup_map_id_inj h1 hwp.1 hwq.1 hid
      rw [hwp.2.2, hwq.2.2, heq]
  · intro a haT haS
    obtain ⟨t, htT, hte⟩ := List.mem_map.mp haT
    obtain ⟨s, hsS, hse⟩ := List.mem_map.mp haS
    rcases selectPendings_assign_ids _ gen hsS with ⟨old, hget, hid⟩ | ⟨m, _, hid⟩
    · have hw := pendingMapOf_wf prev _ (assocGet_mem hget)
      have hteq : t = old :=
        nodup_map_id_inj h1 (terminalsOf_mem_sub htT) hw.1 (by rw [hte, ← hse, hid])
      have hst := terminalsOf_mem_status htT
      rw [hteq] at hst
      rcases hst with h' | h' <;> rw [hw.2.1] at h' <;> exact RecStatus.noConfusion h'
    · have : gen m ∈ prev.map (fun r => r.id) := by
        rw [← hid, hse, ← hte]
        exact List.mem_map.mpr ⟨t, terminalsOf_mem_sub htT, rfl⟩
      exact hgfresh m this

theorem selectPendings_align (pm0 pm1 : List (RecIdentity × Recommendation))
    (gen1 gen2 : Nat → String) :
    ∀ (C0 : List Recommendation) (n : Nat) (proc : List RecIdentity),
    (∀ c ∈ C0, c.status = .pending) →
    (∀ s ∈ selectPendings pm0 proc (assignIds gen1 n C0),
      assocGet pm1 (getRecommendationIdentity s) = some s) →
    selectPendings pm1 proc (assignIds gen2 n C0) =
      selectPendings pm0 proc (assignIds gen1 n C0) := by
  intro C0
  induction C0 with
  | nil => intro n proc _ _; rfl
  | cons c cs ih =>
    intro n proc hc hpm
    rw [assignIds, assignIds, selectPendings, selectPendings]
    rw [assignIds, selectPendings] at hpm
    simp only [getRecommendationIdentity_id] at hpm ⊢
    by_cases hk : getRecommendationIdentity c ∈ proc
    · rw [if_pos hk, if_pos hk]
      rw [if_pos hk] at hpm
      exact ih (n + 1) proc (fun q hq => hc q (List.mem_cons_of_mem c hq)) hpm
    · rw [if_neg hk, if_neg hk]
      rw [if_neg hk] at hpm
      cases hget : assocGet pm0 (getRecommendationIdentity c) with
      | some old =>
        rw [hget] at hpm
        dsimp only at hpm ⊢
        have hlook := hpm _ (List.mem_cons_self _ _)
        rw [getRecommendationIdentity_id_status, getRecommendationIdentity_id] at hlook
        rw [hlook]
        dsimp only
        rw [ih (n + 1) (proc ++ [getRecommendationIdentity c])
          (fun q hq => hc q (List.mem_cons_of_mem c hq))
          (fun s hs => hpm s (List.mem_cons_of_mem _ hs))]
      | none =>
        rw [hget] at hpm
        dsimp only at hpm ⊢
        have hlook := hpm _ (List.mem_cons_self _ _)
        rw [getRecommendationIdentity_id] at hlook
        rw [hlook]
        dsimp only
        rw [ih (n + 1) (proc ++ [getRecommendationIdentity c])
          (fun q hq => hc q (List.mem_cons_of_mem c hq))
          (fun s hs => hpm s (List.mem_cons_of_mem _ hs))]
        show ({ c with id := gen1 n, status := RecStatus.pending } : Recommendation) ::
            selectPendings pm0 (proc ++ [getRecommendationIdentity c]) (assignIds gen1 (n + 1) cs) =
          ({ c with id := gen1 n } : Recommendation) ::
            selectPendings pm0 (proc ++ [getRecommendationIdentity c]) (assignIds gen1 (n + 1) cs)
        rw [rec_set_status_self (hc c (List.mem_cons_self c cs)) (gen1 n)]

/-- C1: amended idempotence. Re-running generateRecommendations on the
unchanged record list and the first run's output reproduces that output
exactly, provided the inputs are well formed: record ids and previous
recommendation ids are duplicate-free, every applied/ignored previous
recommendation targets ids still present in the record list, and the two
runs' id supplies are injective and fresh. The claim's unconditional form is
false: `reconcile_not_idempotent` exhibits an applied recommendation with a
dangling target id whose identity shifts between runs, so the second run's
output differs from the first. -/
theorem generateRecommendations_stable (gen1 gen2 : Nat → String)
    (txs : List TransactionRecord) (prev : List Recommendation)
    (htxids : ((txs.map (fun t => t.id)).Nodup))
    (h1 : ((prev.map (fun r => r.id)).Nodup))
    (h2 : ∀ r ∈ prev, (r.status = .applied ∨ r.status = .ignored) →
      ∀ x ∈ r.transactionIds, x ∈ txs.map (fun t => t.id))
    (hg1inj : Function.Injective gen1) (hg2inj : Function.Injective gen2)
    (hg1fresh : ∀ n, gen1 n ∉ prev.map (fun r => r.id))
    (hg2fresh : ∀ n, gen2 n ∉ prev.map (fun r => r.id))
    (hg21 : ∀ n m, gen2 n ≠ gen1 m) :
    generateRecommendations gen2 txs (generateRecommendations gen1 txs prev) =
      generateRecommendations gen1 txs prev := by
  have hout1 := generateRecommendations_eq gen1 txs prev htxids h1 h2 hg1inj hg1fresh
  have hTterm : ∀ r ∈ terminalsOf prev, r.status = .applied ∨ r.status = .ignored :=
    fun r hr => terminalsOf_mem_status hr
  have hS1pend := selectPendings_pending (pendingMapOf prev) gen1 txs
    ((terminalsOf prev).map getRecommendationIdentity) 0
  have hS1nd := selectPendings_idents_nodup (pendingMapOf prev)
    (assignIds gen1 0 (ruleCandidates txs)) ((terminalsOf prev).map getRecommendationIdentity)
  have hout1ids := gen_out_ids_nodup gen1 txs prev h1 hg1inj hg1fresh
  have hout1h2 : ∀ r ∈ terminalsOf prev ++
      selectPendings (pendingMapOf prev) ((terminalsOf prev).map getRecommendationIdentity)
        (assignIds gen1 0 (ruleCandidates txs)),
      (r.status = .applied ∨ r.status = .ignored) →
      ∀ x ∈ r.transactionIds, x ∈ txs.map (fun t => t.id) := by
    intro r hr hterm x hx
    rcases List.mem_append.mp hr with h' | h'
    · exact h2 r (terminalsOf_mem_sub h') (terminalsOf_mem_status h') x hx
    · exfalso
      rcases hterm with h'' | h'' <;> rw [hS1pend r h'] at h'' <;>
        exact RecStatus.noConfusion h''
  have hg2freshOut : ∀ n, gen2 n ∉ (terminalsOf prev ++
      selectPendings (pendingMapOf prev) ((terminalsOf prev).map getRecommendationIdentity)
        (assignIds gen1 0 (ruleCandidates txs))).map (fun r => r.id) := by
    intro n hmem
    rw [List.map_append] at hmem
    rcases List.mem_append.mp hmem with h' | h'
    · obtain ⟨t, htT, hte⟩ := List.mem_map.mp h'
      exact hg2fresh n (List.mem_map.mpr ⟨t, terminalsOf_mem_sub htT, hte⟩)
    · obtain ⟨s, hsS, hse⟩ := List.mem_map.mp h'
      rcases selectPendings_assign_ids _ gen1 hsS with ⟨old, hget, hid⟩ | ⟨m, _, hid⟩
      · have hw := pendingMapOf_wf prev _ (assocGet_mem hget)
        apply hg2fresh n
        have : s.id ∈ prev.map (fun r => r.id) := by
          rw [hid]
          exact List.mem_map.mpr ⟨old, hw.1, rfl⟩
        rwa [hse] at this
      · exact hg21 n m (by rw [← hse, hid])
  have hout2 := generateRecommendations_eq gen2 txs
    (terminalsOf prev ++
      selectPendings (pendingMapOf prev) ((terminalsOf prev).map getRecommendationIdentity)
        (assignIds gen1 0 (ruleCandidates txs)))
    htxids hout1ids hout1h2 hg2inj hg2freshOut
  rw [hout1, hout2]
  rw [terminalsOf_append, terminalsOf_eq_self hTterm,
    terminalsOf_eq_nil (fun r hr => hS1pend r hr), List.append_nil]
  rw [pendingMapOf_TS (terminalsOf prev)
    (selectPendings (pendingMapOf prev) ((terminalsOf prev).map getRecommendationIdentity)
      (assignIds gen1 0 (ruleCandidates txs)))
    (fun r hr => by rcases hTterm r hr with h | h <;> simp [h]) hS1pend hS1nd]
  congr 1
  apply selectPendings_align (pendingMapOf prev) _ gen1 gen2 (ruleCandidates txs) 0
    ((terminalsOf prev).map getRecommendationIdentity)
    (fun c hc => (ruleCandidates_props hc).1)
  intro s hs
  exact assocGet_pairs_self _ hS1nd s hs

/-! ## Witness id supplies and their freshness facts -/

theorem wGenU_inj : Function.Injective wGenU := by
  intro a b h
  have h2 : (wGenU a).data.length = (wGenU b).data.length := congrArg (fun s => s.data.length) h
  simpa [wGenU] using h2

theorem wGenV_inj : Function.Injective wGenV := by
  intro a b h
  have h2 : (wGenV a).data.length = (wGenV b).data.length := congrArg (fun s => s.data.length) h
  simpa [wGenV] using h2

theorem wGenU_head (n : Nat) : (wGenU n).data.head? = some 'u' := by
  simp [wGenU, List.replicate_succ]

theorem wGenV_head (n : Nat) : (wGenV n).data.head? = some 'v' := by
  simp [wGenV, List.replicate_succ]

theorem wGenV_ne_wGenU : ∀ n m, wGenV n ≠ wGenU m := by
  intro n m h
  have h2 : (wGenV n).data.head? = (wGenU m).data.head? := congrArg (fun s => s.data.head?) h
  rw [wGenV_head, wGenU_head] at h2
  exact absurd h2 (by decide)

theorem wGenU_notin (n : Nat) (l : List String) (h : ∀ s ∈ l, s.data.head? ≠ some 'u') :
    wGenU n ∉ l :=
  fun hm => h _ hm (wGenU_head n)

theorem wGenV_notin (n : Nat) (l : List String) (h : ∀ s ∈ l, s.data.head? ≠ some 'v') :
    wGenV n ∉ l :=
  fun hm => h _ hm (wGenV_head n)

theorem getRecommendationIdentity_txIds (r : Recommendation) :
    (getRecommendationIdentity r).transactionIdsString = sortStrings r.transactionIds := rfl

theorem selectPendings_target_active (gen : Nat → String) (txs : List TransactionRecord)
    (pm : List (RecIdentity × Recommendation)) (proc : List RecIdentity) {r : Recommendation}
    (hr : r ∈ selectPendings pm proc (assignIds gen 0 (ruleCandidates txs))) :
    ∀ x ∈ r.transactionIds,
      x ∈ (txs.filter (fun t => !t.flags.isDeleted)).map (fun t => t.id) := by
  refine selectPendings_prop pm
    (fun c => ∀ x ∈ c.transactionIds,
      x ∈ (txs.filter (fun t => !t.flags.isDeleted)).map (fun t => t.id))
    ?_ (fun c hc => (assigned_candidates_props hc).2.2) r hr
  intro c x hc
  exact hc

set_option maxRecDepth 1000000

/-- C1 counterexample: with an applied previous recommendation whose target
list still holds a hard-deleted id, the second run's output differs from the
first run's output on the same record list. -/
theorem reconcile_not_idempotent :
    generateRecommendations exGen2 [exReconTxA, exReconTxH]
        (generateRecommendations exGen1 [exReconTxA, exReconTxH] [exAppliedDangling]) ≠
      generateRecommendations exGen1 [exReconTxA, exReconTxH] [exAppliedDangling] := by
  decide

/-- C1 witness: the stability theorem applied at a concrete duplicate pair
with no previous recommendations. -/
theorem generateRecommendations_stable_witness :
    generateRecommendations wGenV [exDupT1, exDupT2]
        (generateRecommendations wGenU [exDupT1, exDupT2] []) =
      generateRecommendations wGenU [exDupT1, exDupT2] [] :=
  generateRecommendations_stable wGenU wGenV [exDupT1, exDupT2] [] (by decide) (by decide)
    (fun r hr => absurd hr (List.not_mem_nil r)) wGenU_inj wGenV_inj
    (fun n => by simp) (fun n => by simp) wGenV_ne_wGenU

/-- C2: identity stability. Under the same well-formedness hypotheses as C1,
the output of generateRecommendations contains no pending recommendation
whose identity tuple equals the identity tuple of an applied or ignored
previous recommendation: the resolved identities are recorded in step 1 and
step 3 discards any regenerated candidate with such an identity. -/
theorem identity_stability (gen : Nat → String) (txs : List TransactionRecord)
    (prev : List Recommendation)
    (htxids : ((txs.map (fun t => t.id)).Nodup))
    (h1 : ((prev.map (fun r => r.id)).Nodup))
    (h2 : ∀ r ∈ prev, (r.status = .applied ∨ r.status = .ignored) →
      ∀ x ∈ r.transactionIds, x ∈ txs.map (fun t => t.id))
    (hginj : Function.Injective gen)
    (hgfresh : ∀ n, gen n ∉ prev.map (fun r => r.id))
    (rt : Recommendation) (hrt : rt ∈ prev)
    (hterm : rt.status = .applied ∨ rt.status = .ignored) :
    (generateRecommendations gen txs prev).filter (fun r =>
      decide (r.status = .pending) &&
        decide (getRecommendationIdentity r = getRecommendationIdentity rt)) = [] := by
  rw [generateRecommendations_eq gen txs prev htxids h1 h2 hginj hgfresh]
  refine List.filter_eq_nil_iff.mpr ?_
  intro r hr
  simp only [Bool.and_eq_true, decide_eq_true_eq, not_and]
  intro hpend hident
  rcases List.mem_append.mp hr with h' | h'
  · rcases terminalsOf_mem_status h' with h'' | h'' <;> rw [hpend] at h'' <;>
      exact RecStatus.noConfusion h''
  · have hnotin := selectPendings_ident_notin _ h'
    apply hnotin
    rw [hident]
    refine List.mem_map.mpr ⟨rt, ?_, rfl⟩
    unfold terminalsOf
    refine List.mem_filter.mpr ⟨hrt, ?_⟩
    rcases hterm with h'' | h'' <;> simp [h'']

/-- C2 witness: the theorem applied at the duplicate pair with an applied
previous recommendation over the same pair. -/
theorem identity_stability_witness :
    (generateRecommendations wGenU [exDupT1, exDupT2] [exTermRec]).filter (fun r =>
      decide (r.status = .pending) &&
        decide (getRecommendationIdentity r = getRecommendationIdentity exTermRec)) = [] :=
  identity_stability wGenU [exDupT1, exDupT2] [exTermRec] (by decide) (by decide) (by decide)
    wGenU_inj (fun n => wGenU_notin n _ (by decide)) exTermRec (by decide) (by decide)

/-- C3: amended soft-delete rule. Under the C1 well-formedness hypotheses,
every pending recommendation in the output targets only active (present and
not soft-deleted) records — for every recommendation type, including
Duplicate. The claim's Duplicate exemption is false: the step-4 exemption is
dead code because a previous pending recommendation only survives step 3
through a regenerated candidate, and the rules only target active records;
`duplicate_soft_deleted_dropped` shows a pending Duplicate over two
soft-deleted records vanishing from the output. -/
theorem pending_targets_active (gen : Nat → String) (txs : List TransactionRecord)
    (prev : List Recommendation)
    (htxids : ((txs.map (fun t => t.id)).Nodup))
    (h1 : ((prev.map (fun r => r.id)).Nodup))
    (h2 : ∀ r ∈ prev, (r.status = .applied ∨ r.status = .ignored) →
      ∀ x ∈ r.transactionIds, x ∈ txs.map (fun t => t.id))
    (hginj : Function.Injective gen)
    (hgfresh : ∀ n, gen n ∉ prev.map (fun r => r.id)) :
    (generateRecommendations gen txs prev).filter (fun r =>
      decide (r.status = .pending) &&
        !(r.transactionIds.all (fun x =>
          decide (x ∈ (txs.filter (fun t => !t.flags.isDeleted)).map (fun t => t.id))))) = [] := by
  rw [generateRecommendations_eq gen txs prev htxids h1 h2 hginj hgfresh]
  refine List.filter_eq_nil_iff.mpr ?_
  intro r hr
  simp only [Bool.and_eq_true, decide_eq_true_eq, Bool.not_eq_true', not_and,
    Bool.not_eq_false, List.all_eq_true]
  intro hpend x hx
  rcases List.mem_append.mp hr with h' | h'
  · exfalso
    rcases terminalsOf_mem_status h' with h'' | h'' <;> rw [hpend] at h'' <;>
      exact RecStatus.noConfusion h''
  · exact selectPendings_target_active gen txs _ _ h' x hx

/-- C3 counterexample: a pending Duplicate recommendation whose two targets
are both soft-deleted is dropped by the next run, not retained. -/
theorem duplicate_soft_deleted_dropped :
    generateRecommendations exGen1 [exSoftT1, exSoftT2] [exPendingDup] = [] := by
  decide

/-- C3 witness: the theorem applied at the soft-deleted pair and the pending
Duplicate recommendation over it. -/
theorem pending_targets_active_witness :
    (generateRecommendations wGenU [exSoftT1, exSoftT2] [exPendingDup]).filter (fun r =>
      decide (r.status = .pending) &&
        !(r.transactionIds.all (fun x =>
          decide (x ∈ ([exSoftT1, exSoftT2].filter (fun t => !t.flags.isDeleted)).map
            (fun t => t.id))))) = [] :=
  pending_targets_active wGenU [exSoftT1, exSoftT2] [exPendingDup] (by decide) (by decide)
    (by decide) wGenU_inj (fun n => wGenU_notin n _ (by decide))

/-- C4: hard-delete pruning. Under the C1 well-formedness hypotheses, if a
pending previous recommendation references a record id absent from the
current record list, the next run's output contains no recommendation with
that recommendation's id; the run is a total function on such inputs by
construction. -/
theorem hard_delete_pruning (gen : Nat → String) (txs : List TransactionRecord)
    (prev : List Recommendation)
    (htxids : ((txs.map (fun t => t.id)).Nodup))
    (h1 : ((prev.map (fun r => r.id)).Nodup))
    (h2 : ∀ r ∈ prev, (r.status = .applied ∨ r.status = .ignored) →
      ∀ x ∈ r.transactionIds, x ∈ txs.map (fun t => t.id))
    (hginj : Function.Injective gen)
    (hgfresh : ∀ n, gen n ∉ prev.map (fun r => r.id))
    (p : Recommendation) (hp : p ∈ prev) (hpst : p.status = .pending)
    (x : String) (hx : x ∈ p.transactionIds)
    (hxgone : x ∉ txs.map (fun t => t.id)) :
    (generateRecommendations gen txs prev).filter (fun r => decide (r.id = p.id)) = [] := by
  rw [generateRecommendations_eq gen txs prev htxids h1 h2 hginj hgfresh]
  refine List.filter_eq_nil_iff.mpr ?_
  intro r hr
  simp only [decide_eq_true_eq]
  intro hid
  rcases List.mem_append.mp hr with h' | h'
  · have heq := nodup_map_id_inj h1 (terminalsOf_mem_sub h') hp hid
    have hst := terminalsOf_mem_status h'
    rw [heq, hpst] at hst
    rcases hst with h'' | h'' <;> exact RecStatus.noConfusion h''
  · rcases selectPendings_assign_ids _ gen h' with ⟨old, hget, hido⟩ | ⟨m, _, hidm⟩
    · have hw := pendingMapOf_wf prev _ (assocGet_mem hget)
      have hop : old = p := nodup_map_id_inj h1 hw.1 hp (by rw [← hido, hid])
      have hkey : getRecommendationIdentity r = getRecommendationIdentity old := hw.2.2
      have hxr : x ∈ r.transactionIds := by
        have hxs : x ∈ sortStrings p.transactionIds := mem_sortStrings.mpr hx
        rw [← hop] at hxs
        have hsx : sortStrings r.transactionIds = sortStrings old.transactionIds := by
          rw [← getRecommendationIdentity_txIds, ← getRecommendationIdentity_txIds, hkey]
        rw [← hsx] at hxs
        exact mem_sortStrings.mp hxs
      have hact := selectPendings_target_active gen txs _ _ h' x hxr
      obtain ⟨t, htf, hte⟩ := List.mem_map.mp hact
      exact hxgone (List.mem_map.mpr ⟨t, List.mem_of_mem_filter htf, hte⟩)
    · apply hgfresh m
      rw [← hidm, hid]
      exact List.mem_map.mpr ⟨p, hp, rfl⟩

/-- C4 witness: the theorem applied at a record list that no longer holds
the pending recommendation's targets. -/
theorem hard_delete_pruning_witness :
    (generateRecommendations wGenU [exReconTxA] [exPendingDup]).filter (fun r =>
      decide (r.id = exPendingDup.id)) = [] :=
  hard_delete_pruning wGenU [exReconTxA] [exPendingDup] (by decide) (by decide) (by decide)
    wGenU_inj (fun n => wGenU_notin n _ (by decide)) exPendingDup (by decide) (by decide)
    "s1" (by decide) (by decide)

/-! ## Exact-duplicate confidence (C6) -/

theorem simpleSimilarity_empty : simpleSimilarity "" "" = 1 := by decide

theorem simpleSimilarity_self {s : String} (h : s ≠ "") :
    simpleSimilarity s s = mkRat 4 5 := by
  unfold simpleSimilarity
  dsimp only
  simp only [ite_self]
  rw [if_neg (fun h0 => h (string_length_eq_zero.mp h0))]
  rw [if_pos ⟨strIncludes_refl _, by omega⟩]

theorem dupConfidence_exact {t1 t2 : TransactionRecord}
    (hp : t1.paidTo = t2.paidTo) (hd : t1.description = t2.description)
    (hne : t1.paidTo ≠ "") :
    dupConfidence t1 t2 = mkRat 19 20 := by
  unfold dupConfidence
  dsimp only
  rw [← hp, ← hd]
  rw [simpleSimilarity_self hne]
  by_cases hdesc : t1.description = ""
  · rw [hdesc, simpleSimilarity_empty]
    rw [if_neg (fun hc => absurd hc.1 (by decide))]
    rw [if_neg (fun hc => absurd hc.1 (by decide))]
    rw [if_pos ⟨rfl, by decide⟩]
  · rw [simpleSimilarity_self hdesc]
    rw [if_neg (fun hc => absurd hc.1 (by decide))]
    rw [if_neg (fun hc => absurd hc.1 (by decide))]
    rw [if_pos ⟨rfl, by decide⟩]

/-- C6: amended exact-duplicate confidence. For two active records in the
same (date, amount) bucket with equal non-empty counterparty names and equal
descriptions, the detector emits the pair with confidence 0.95, not 1.0:
equal non-empty strings score exactly 0.8 under simpleSimilarity, which
fails the strict `> 0.8` test, so the exact-paidTo/similar-description
branch fires first and the claimed 1.0 branch is unreachable. -/
theorem duplicate_exact_pair (t1 t2 : TransactionRecord)
    (hkey : dupKey t1 = dupKey t2)
    (hdel1 : t1.flags.isDeleted = false) (hdel2 : t2.flags.isDeleted = false)
    (hp : t1.paidTo = t2.paidTo) (hd : t1.description = t2.description)
    (hne : t1.paidTo ≠ "") :
    findDuplicateRecommendations [t1, t2] = [dupRec t1 t2 (mkRat 19 20)] := by
  unfold findDuplicateRecommendations dupBuckets
  dsimp only
  have hgl : ([t1, t2].filter (fun t => !t.flags.isDeleted)) = [t1, t2] := by
    simp [List.filter, hdel1, hdel2]
  rw [hgl]
  have hmap : [t1, t2].map dupKey = [dupKey t2, dupKey t2] := by
    rw [List.map_cons, List.map_cons, List.map_nil, hkey]
  rw [hmap]
  have hdd : firstDedup [dupKey t2, dupKey t2] = [dupKey t2] := by
    simp [firstDedup]
  rw [hdd]
  have hbucket : [t1, t2].filter (fun t => decide (dupKey t = dupKey t2)) = [t1, t2] := by
    simp [List.filter, hkey]
  rw [List.map_cons, List.map_nil, hbucket]
  rw [List.flatMap_cons, List.flatMap_nil]
  rw [if_pos (by simp : (1 : Nat) < [t1, t2].length)]
  have hpairs : pairsOf [t1, t2] = [(t1, t2)] := by
    simp [pairsOf]
  rw [hpairs, List.append_nil]
  rw [dupEmit]
  rw [if_neg (List.not_mem_nil _)]
  dsimp only
  rw [dupConfidence_exact hp hd hne]
  rw [if_pos (by decide : mkRat 3 4 ≤ mkRat 19 20)]
  rw [dupEmit]

/-- C6 counterexample: the exact-match pair receives confidence 0.95, and
0.95 is not the claimed 1.0. -/
theorem duplicate_exact_pair_not_one :
    (findDuplicateRecommendations [exDupT1, exDupT2]).map (fun r => r.confidence) =
      [some (mkRat 19 20)] ∧ (mkRat 19 20 : ℚ) ≠ 1 :=
  ⟨by decide, by decide⟩

/-- C6 witness: the amended theorem applied at the concrete exact pair. -/
theorem duplicate_exact_pair_witness :
    findDuplicateRecommendations [exDupT1, exDupT2] =
      [dupRec exDupT1 exDupT2 (mkRat 19 20)] :=
  duplicate_exact_pair exDupT1 exDupT2 (by decide) (by decide) (by decide) (by decide)
    (by decide) (by decide)

/-- C7: amended status transitions. Each of the four operations overwrites
the status of every targeted recommendation with its own terminal value and
leaves every other status unchanged — the update is not gated on the prior
status, so applied and ignored are not terminal: applying an ignored
recommendation flips it to applied (see
`apply_on_ignored_becomes_applied`). -/
theorem status_transition_behavior (rid : String) (ids : List String) (st : AppState) :
    (applyRecommendation rid st).recommendations.map (fun r => r.status) =
      st.recommendations.map (fun r => if r.id = rid then RecStatus.applied else r.status) ∧
    (ignoreRecommendation rid st).recommendations.map (fun r => r.status) =
      st.recommendations.map (fun r => if r.id = rid then RecStatus.ignored else r.status) ∧
    (applyMultipleRecommendations ids st).recommendations.map (fun r => r.status) =
      st.recommendations.map (fun r => if r.id ∈ ids then RecStatus.applied else r.status) ∧
    (ignoreMultipleRecommendations ids st).recommendations.map (fun r => r.status) =
      st.recommendations.map (fun r => if r.id ∈ ids then RecStatus.ignored else r.status) := by
  refine ⟨?_, ?_, ?_, ?_⟩
  · unfold applyRecommendation
    cases hfind : st.recommendations.find? (fun r => decide (r.id = rid)) with
    | none =>
      dsimp only
      refine List.map_congr_left ?_
      intro r hr
      have := List.find?_eq_none.mp hfind r hr
      rw [if_neg (by simpa using this)]
    | some rec =>
      dsimp only
      rw [List.map_map]
      refine List.map_congr_left ?_
      intro r _
      by_cases hr : r.id = rid
      · simp [hr]
      · simp [hr]
  · unfold ignoreRecommendation
    dsimp only
    rw [List.map_map]
    refine List.map_congr_left ?_
    intro r _
    by_cases hr : r.id = rid
    · simp [hr]
    · simp [hr]
  · unfold applyMultipleRecommendations
    dsimp only
    rw [List.map_map]
    refine List.map_congr_left ?_
    intro r _
    by_cases hr : r.id ∈ ids
    · simp [hr]
    · simp [hr]
  · unfold ignoreMultipleRecommendations
    dsimp only
    rw [List.map_map]
    refine List.map_congr_left ?_
    intro r _
    by_cases hr : r.id ∈ ids
    · simp [hr]
    · simp [hr]

/-- C7 counterexample: applying an ignored recommendation changes its status
to applied, so ignored is not terminal. -/
theorem apply_on_ignored_becomes_applied :
    exIgnoredRec.status = RecStatus.ignored ∧
    (applyRecommendation "r1" exStateIgnored).recommendations.map (fun r => r.status) =
      [RecStatus.applied] :=
  ⟨by decide, by decide⟩

/-- C8: amended merchant-normalization example. On the spec's own record set
("AMZN Mktp US" ×5, "AMZN MKTPLACE" ×1) the normalizer emits nothing: the
pair's normalized Levenshtein similarity is 9/13 ≈ 0.69, which is below the
0.8 grouping threshold, so the two names are never clustered and no
recommendation is produced. -/
theorem merchant_example_below_threshold :
    merchantSimilarityScore "AMZN Mktp US" "AMZN MKTPLACE" = mkRat 9 13 ∧
    areStringsSimilar "AMZN Mktp US" "AMZN MKTPLACE" (mkRat 4 5) = false ∧
    normalizeMerchantRecommendations amznTxs = [] :=
  ⟨by decide, by decide, by decide⟩

/-- C8 counterexample: the normalizer emits no recommendation at all on the
spec's example record set. -/
theorem merchant_example_no_recommendation :
    (normalizeMerchantRecommendations amznTxs).length = 0 := by decide

/-- C9: totality of the rule modules on degenerate input. The division
guards hold (similarity of two empty strings is 1 by the explicit
zero-length guard, and the normalized-match fast path accepts them), and all
four rule modules evaluate to a recommendation list — here the empty one —
on a record whose string fields are all empty and whose amount is zero;
empty counterparty names are skipped as missing rather than failing. -/
theorem rule_modules_total_on_degenerate_input :
    simpleSimilarity "" "" = 1 ∧
    areStringsSimilar "" "" (mkRat 4 5) = true ∧
    findDuplicateRecommendations [exEmptyTx] = [] ∧
    normalizeMerchantRecommendations [exEmptyTx] = [] ∧
    suggestMissingFieldRecommendations [exEmptyTx] [exEmptyTx] = [] ∧
    suggestClassificationRecommendations [exEmptyTx] [exEmptyTx] = [] :=
  ⟨by decide, by decide, by decide, by decide, by decide, by decide⟩

/-! ## Frame lemmas for applyRecToTx (C10) -/

theorem applyRecToTx_untargeted (rec : Recommendation) (t : TransactionRecord)
    (h : t.id ∉ rec.transactionIds) : applyRecToTx rec t = t := by
  unfold applyRecToTx
  rw [if_neg h]

set_option maxHeartbeats 2000000 in
theorem applyRecToTx_fixed (rec : Recommendation) (t : TransactionRecord) :
    (applyRecToTx rec t).id = t.id ∧
    (applyRecToTx rec t).dateOfPayment = t.dateOfPayment ∧
    (applyRecToTx rec t).amountPaid = t.amountPaid ∧
    (applyRecToTx rec t).description = t.description ∧
    (applyRecToTx rec t).rowNum = t.rowNum := by
  refine ⟨?_, ?_, ?_, ?_, ?_⟩ <;> (unfold applyRecToTx; dsimp only; repeat' split) <;> rfl

set_option maxHeartbeats 2000000 in
theorem applyRecToTx_unaffected (rec : Recommendation) (t : TransactionRecord) (f : TxField)
    (h : recAffected rec ≠ some f) :
    txGet (applyRecToTx rec t) f = txGet t f := by
  unfold applyRecToTx
  dsimp only
  split
  case isFalse => rfl
  case isTrue hmem =>
    split
    case isTrue hc =>
      have ha : recAffected rec = some TxField.paidTo := by
        unfold recAffected
        rw [hc.1, hc.2]; rfl
      cases f
      case paidTo => exact absurd ha h
      all_goals rfl
    case isFalse =>
      split
      case isTrue hc =>
        split
        case isTrue hcf =>
          have ha : recAffected rec = some TxField.expenseType := by
            unfold recAffected
            rw [hc.1, hcf]; rfl
          cases f
          case expenseType => exact absurd ha h
          all_goals rfl
        case isFalse =>
          split
          case isTrue hcf =>
            have ha : recAffected rec = some TxField.expenseSubtype := by
              unfold recAffected
              rw [hc.1, hcf]; rfl
            cases f
            case expenseSubtype => exact absurd ha h
            all_goals rfl
          case isFalse => cases f <;> rfl
      case isFalse =>
        split
        case isTrue hc =>
          split
          case isTrue hcf =>
            have ha : recAffected rec = some TxField.expenseType := by
              unfold recAffected
              rw [hc.1, hcf]; rfl
            cases f
            case expenseType => exact absurd ha h
            all_goals rfl
          case isFalse =>
            split
            case isTrue hcf =>
              have ha : recAffected rec = some TxField.expenseSubtype := by
                unfold recAffected
                rw [hc.1, hcf]; rfl
              cases f
              case expenseSubtype => exact absurd ha h
              all_goals rfl
            case isFalse =>
              split
              case isTrue hcf =>
                have ha : recAffected rec = some TxField.transactionType := by
                  unfold recAffected
                  rw [hc.1, hcf]; rfl
                cases f
                case transactionType => exact absurd ha h
                all_goals rfl
              case isFalse => cases f <;> rfl
        case isFalse =>
          split
          case isTrue => cases f <;> rfl
          case isFalse => cases f <;> rfl

set_option maxHeartbeats 2000000 in
theorem applyRecToTx_ov_frame (rec : Recommendation) (t : TransactionRecord) (g : TxField)
    (h : recAffected rec ≠ some g) :
    ovGet ((applyRecToTx rec t).originalValues.getD {}) g =
      ovGet (t.originalValues.getD {}) g := by
  unfold applyRecToTx
  dsimp only
  split
  case isFalse => rfl
  case isTrue hmem =>
    split
    case isTrue hc =>
      have ha : recAffected rec = some TxField.paidTo := by
        unfold recAffected
        rw [hc.1, hc.2]; rfl
      cases g
      case paidTo => exact absurd ha h
      all_goals split <;> rfl
    case isFalse =>
      split
      case isTrue hc =>
        split
        case isTrue hcf =>
          have ha : recAffected rec = some TxField.expenseType := by
            unfold recAffected
            rw [hc.1, hcf]; rfl
          cases g
          case expenseType => exact absurd ha h
          all_goals split <;> rfl
        case isFalse =>
          split
          case isTrue hcf =>
            have ha : recAffected rec = some TxField.expenseSubtype := by
              unfold recAffected
              rw [hc.1, hcf]; rfl
            cases g
            case expenseSubtype => exact absurd ha h
            all_goals split <;> rfl
          case isFalse => cases g <;> rfl
      case isFalse =>
        split
        case isTrue hc =>
          split
          case isTrue hcf =>
            have ha : recAffected rec = some TxField.expenseType := by
              unfold recAffected
              rw [hc.1, hcf]; rfl
            cases g
            case expenseType => exact absurd ha h
            all_goals split <;> rfl
          case isFalse =>
            split
            case isTrue hcf =>
              have ha : recAffected rec = some TxField.expenseSubtype := by
                unfold recAffected
                rw [hc.1, hcf]; rfl
              cases g
              case expenseSubtype => exact absurd ha h
              all_goals split <;> rfl
            case isFalse =>
              split
              case isTrue hcf =>
                have ha : recAffected rec = some TxField.transactionType := by
                  unfold recAffected
                  rw [hc.1, hcf]; rfl
                cases g
                case transactionType => exact absurd ha h
                all_goals split <;> rfl
              case isFalse => cases g <;> rfl
        case isFalse =>
          split
          case isTrue => cases g <;> rfl
          case isFalse => cases g <;> rfl

set_option maxHeartbeats 2000000 in
theorem applyRecToTx_affected (rec : Recommendation) (t : TransactionRecord) (f : TxField)
    (hmem : t.id ∈ rec.transactionIds) (ha : recAffected rec = some f) :
    txGet (applyRecToTx rec t) f = rec.suggestedValue ∧
    ovGet ((applyRecToTx rec t).originalValues.getD {}) f =
      some (Option.getD (ovGet (t.originalValues.getD {}) f) (txGet t f)) := by
  unfold recAffected at ha
  unfold applyRecToTx
  rw [if_pos hmem]
  dsimp only
  split at ha
  next h1 h2 =>
    injection ha with hf
    subst hf
    cases hov : (t.originalValues.getD {}).paidTo with
    | none => simp [h1, h2, hov, txGet, ovGet]
    | some v => simp [h1, h2, hov, txGet, ovGet]
  next h1 h2 =>
    injection ha with hf
    subst hf
    cases hov : (t.originalValues.getD {}).expenseType with
    | none => simp [h1, h2, hov, txGet, ovGet, optTruthy]
    | some v => simp [h1, h2, hov, txGet, ovGet, optTruthy]
  next h1 h2 =>
    injection ha with hf
    subst hf
    cases hov : (t.originalValues.getD {}).expenseSubtype with
    | none => simp [h1, h2, hov, txGet, ovGet, optTruthy]
    | some v => simp [h1, h2, hov, txGet, ovGet, optTruthy]
  next h1 h2 =>
    injection ha with hf
    subst hf
    cases hov : (t.originalValues.getD {}).expenseType with
    | none => simp [h1, h2, hov, txGet, ovGet, optTruthy]
    | some v => simp [h1, h2, hov, txGet, ovGet, optTruthy]
  next h1 h2 =>
    injection ha with hf
    subst hf
    cases hov : (t.originalValues.getD {}).expenseSubtype with
    | none => simp [h1, h2, hov, txGet, ovGet, optTruthy]
    | some v => simp [h1, h2, hov, txGet, ovGet, optTruthy]
  next h1 h2 =>
    injection ha with hf
    subst hf
    cases hov : (t.originalValues.getD {}).transactionType with
    | none => simp [h1, h2, hov, txGet, ovGet, optTruthy]
    | some v => simp [h1, h2, hov, txGet, ovGet, optTruthy]
  all_goals exact Option.noConfusion ha

/-- C10: frame property of applyRecommendation. An unknown id is a no-op.
Otherwise the record list is mapped by the per-record mutation and the
recommendation list only has the targeted recommendation's status set to
applied; the mutation leaves untargeted records untouched, never changes a
record's id, date, amount, description or row number, changes no writable
field other than the recommendation's affected field, leaves the other
originalValues components as they were, and on a targeted record overwrites
the affected field with the suggested value while capturing the pre-change
value into originalValues only when none was captured before. -/
theorem applyRecommendation_frame (rid : String) (st : AppState) :
    (st.recommendations.find? (fun r => decide (r.id = rid)) = none →
      applyRecommendation rid st = st) ∧
    ∀ rec, st.recommendations.find? (fun r => decide (r.id = rid)) = some rec →
      (applyRecommendation rid st).transactions = st.transactions.map (applyRecToTx rec) ∧
      (applyRecommendation rid st).recommendations =
        st.recommendations.map (fun r =>
          if r.id = rid then { r with status := RecStatus.applied } else r) ∧
      (∀ t : TransactionRecord, t.id ∉ rec.transactionIds → applyRecToTx rec t = t) ∧
      (∀ t : TransactionRecord,
        (applyRecToTx rec t).id = t.id ∧
        (applyRecToTx rec t).dateOfPayment = t.dateOfPayment ∧
        (applyRecToTx rec t).amountPaid = t.amountPaid ∧
        (applyRecToTx rec t).description = t.description ∧
        (applyRecToTx rec t).rowNum = t.rowNum) ∧
      (∀ (t : TransactionRecord) (f : TxField), recAffected rec ≠ some f →
        txGet (applyRecToTx rec t) f = txGet t f) ∧
      (∀ (t : TransactionRecord) (g : TxField), recAffected rec ≠ some g →
        ovGet ((applyRecToTx rec t).originalValues.getD {}) g =
          ovGet (t.originalValues.getD {}) g) ∧
      (∀ (t : TransactionRecord) (f : TxField), t.id ∈ rec.transactionIds →
        recAffected rec = some f →
        txGet (applyRecToTx rec t) f = rec.suggestedValue ∧
        ovGet ((applyRecToTx rec t).originalValues.getD {}) f =
          some (Option.getD (ovGet (t.originalValues.getD {}) f) (txGet t f))) := by
  constructor
  · intro h
    unfold applyRecommendation
    rw [h]
  · intro rec h
    refine ⟨?_, ?_, fun t ht => applyRecToTx_untargeted rec t ht,
      fun t => applyRecToTx_fixed rec t,
      fun t f hf => applyRecToTx_unaffected rec t f hf,
      fun t g hg => applyRecToTx_ov_frame rec t g hg,
      fun t f hm haf => applyRecToTx_affected rec t f hm haf⟩
    · unfold applyRecommendation
      rw [h]
    · unfold applyRecommendation
      rw [h]
